import Mathlib

/-!
# go_is_god: the weather aggregator of `main.go`

A shallow embedding of `src/main.go`:

* `GoFloat` is the arithmetic the program performs on `float64` values, with two
  instances: exact rational arithmetic (`ℚ`) and `F64`, IEEE 754 binary64 with
  round-to-nearest-even, which is what Go's `float64` is.
* `weatherProvider`, `multiWeatherProvider` and `multiWeatherProvider.temperature`
  embed the fan-out/fan-in of lines 101-136: goroutines, the two buffered channels
  `temps` and `errs`, and the collecting `for`/`select` loop.  The scheduler is an
  explicit argument, so that a statement over all schedules is a statement over all
  arrival orders and all choices of the `select`.
* `openWeatherMap.temperature`, `weatherUnderground.temperature` and
  `forecastIo.temperature` embed the three adapters from the decoded payload onwards;
  the multiplication and the addition of `forecastIo.temperature` are rounded separately
  or fused into one operation, as the compiler chooses.
* `weatherHandler` embeds the `/weather/` handler of `main`, with `strings.SplitN`
  and `http.Error` of the Go standard library.
-/

namespace GoIsGod

/-! ## float64 arithmetic -/

/-- The operations the program applies to `float64` values.  `ofConst num den` is the
conversion to `float64` of the exact number `num / den`: an untyped Go constant such as
`0.0`, `32`, `273.15` or `5.0 / 9.0` (which Go evaluates exactly before converting), or an
integer such as `len(w)` in `float64(len(w))`.  `fma x y z` is `x * y + z` computed as one
fused operation, rounded once: the Go specification allows an implementation to fuse
`x * y + z`, and the compiler does so on some architectures. -/
class GoFloat (α : Type) where
  add : α → α → α
  sub : α → α → α
  mul : α → α → α
  div : α → α → α
  fma : α → α → α → α
  ofConst : Int → Nat → α

/-- Exact arithmetic: every operation is the rational one, nothing is rounded. -/
instance instGoFloatRat : GoFloat ℚ where
  add x y := x + y
  sub x y := x - y
  mul x y := x * y
  div x y := x / y
  fma x y z := x * y + z
  ofConst num den := (num : ℚ) / (den : ℚ)

/-- Number of binary digits of `x`, by halving; the first argument bounds the number of
halvings. -/
def bitLenAux : Nat → Nat → Nat
  | 0, _ => 0
  | fuel + 1, x => if x = 0 then 0 else bitLenAux fuel (x / 2) + 1

/-- Number of binary digits of `x` (`0` for `0`). -/
def bitLen (x : Nat) : Nat := bitLenAux x x

/-- An IEEE 754 binary64 value, which is what a Go `float64` holds: a NaN, an infinity
with its sign, or the finite number `(-1)^neg * m * 2^e`.  The values the operations below
produce are in canonical form: `m < 2^53`, `-1074 ≤ e ≤ 971`, and `2^52 ≤ m` unless
`e = -1074` (zeros and subnormals), so that equal numbers with equal signs are equal
terms. -/
inductive F64 where
  | nan
  | inf (neg : Bool)
  | fin (neg : Bool) (m : Nat) (e : Int)
  deriving DecidableEq, Repr

namespace F64

/-- The exponent of the last place of the binary64 nearest to `(a / b) * 2^e`, for
`a` and `b` positive: the exponent for which the quotient has 53 significant bits, but
not below `-1074`. -/
def lastPlace (a b : Nat) (e : Int) : Int :=
  let k : Int := (bitLen a : Int) - (bitLen b : Int) + e - 52
  let q0 := (a * 2 ^ (e - k).toNat) / (b * 2 ^ (k - e).toNat)
  max (if q0 < 2 ^ 52 then k - 1 else k) (-1074)

/-- The integer nearest to `num / den`, the even one of the two when there is a tie. -/
def nearestEven (num den : Nat) : Nat :=
  if den < 2 * (num % den) ∨ (2 * (num % den) = den ∧ (num / den) % 2 = 1) then num / den + 1
  else num / den

/-- Correct rounding to binary64 (round to nearest, ties to even) of the exact number
`(-1)^neg * (a / b) * 2^e`.  The quotient is rounded to an integer number `m` of units of
the last place `2^ex`; a result of `2^1024` or more overflows to the infinity. -/
def roundScaled (neg : Bool) (a b : Nat) (e : Int) : F64 :=
  if a = 0 ∨ b = 0 then fin neg 0 (-1074) else
  let ex := lastPlace a b e
  let m := nearestEven (a * 2 ^ (e - ex).toNat) (b * 2 ^ (ex - e).toNat)
  if m = 2 ^ 53 then (if 971 < ex + 1 then inf neg else fin neg (2 ^ 52) (ex + 1))
  else if 971 < ex then inf neg else fin neg m ex

/-- Conversion of the exact constant `num / den` to binary64. -/
def ofConst (num : Int) (den : Nat) : F64 :=
  roundScaled (decide (num < 0)) num.natAbs den 0

/-- Sign change. -/
def negate : F64 → F64
  | nan => nan
  | inf s => inf (!s)
  | fin s m e => fin (!s) m e

/-- The binary64 sum: the exact sum, correctly rounded; an exact zero sum is `-0` only
when both operands are negative. -/
def add : F64 → F64 → F64
  | nan, _ => nan
  | _, nan => nan
  | inf s, inf t => if s = t then inf s else nan
  | inf s, fin _ _ _ => inf s
  | fin _ _ _, inf t => inf t
  | fin s m e, fin t n f =>
    let ex := min e f
    let x : Int := (if s then -1 else 1) * ((m * 2 ^ (e - ex).toNat : Nat) : Int)
    let y : Int := (if t then -1 else 1) * ((n * 2 ^ (f - ex).toNat : Nat) : Int)
    let z := x + y
    if z = 0 then fin (s && t) 0 (-1074) else roundScaled (decide (z < 0)) z.natAbs 1 ex

/-- The binary64 difference. -/
def sub (x y : F64) : F64 := add x (negate y)

/-- The binary64 product. -/
def mul : F64 → F64 → F64
  | nan, _ => nan
  | _, nan => nan
  | inf s, inf t => inf (xor s t)
  | inf s, fin t n _ => if n = 0 then nan else inf (xor s t)
  | fin s m _, inf t => if m = 0 then nan else inf (xor s t)
  | fin s m e, fin t n f => roundScaled (xor s t) (m * n) 1 (e + f)

/-- The binary64 quotient; `0 / 0` is a NaN and `x / 0` an infinity: a `float64` division
by zero does not panic. -/
def div : F64 → F64 → F64
  | nan, _ => nan
  | _, nan => nan
  | inf _, inf _ => nan
  | inf s, fin t _ _ => inf (xor s t)
  | fin s _ _, inf t => fin (xor s t) 0 (-1074)
  | fin s m e, fin t n f =>
    if n = 0 then (if m = 0 then nan else inf (xor s t))
    else roundScaled (xor s t) m n (e - f)

/-- The fused multiply-add: the exact `x * y + z`, correctly rounded.  For finite `x` and
`y` the exact product is `(-1)^(s xor t) * (m * n) * 2^(e + f)`, which `add` adds to `z`
exactly before it rounds; otherwise the product is a NaN or an infinity. -/
def fma : F64 → F64 → F64 → F64
  | fin s m e, fin t n f, z => add (fin (xor s t) (m * n) (e + f)) z
  | x, y, z => add (mul x y) z

/-- The rational number that a finite value is (`0` for a NaN or an infinity). -/
def toRat : F64 → ℚ
  | fin s m e => (if s then -1 else 1) * (m : ℚ) * (2 : ℚ) ^ e
  | _ => 0

end F64

/-- Go's `float64` arithmetic. -/
instance instGoFloatF64 : GoFloat F64 where
  add := F64.add
  sub := F64.sub
  mul := F64.mul
  div := F64.div
  fma := F64.fma
  ofConst := F64.ofConst

/-- The value of `sum` after the loop has added the temperatures of `l` to `0.0`, one
`sum += temp` at a time, from the first to the last. -/
def fsum {α : Type} [GoFloat α] (l : List α) : α :=
  l.foldl GoFloat.add (GoFloat.ofConst 0 1)

/-! ## The aggregator -/

/-- A Go `string`: a sequence of bytes. -/
abbrev GoString := List UInt8

/-- The bytes of an ASCII literal. -/
def str (s : String) : GoString := s.toList.map (fun c => UInt8.ofNat c.toNat)

/-- The interface `weatherProvider`: `temperature(city string) (float64, error)`, with
`none` for the `nil` error.  `α` is the type of `float64` values and `ε` the type of
non-nil `error` values. -/
structure weatherProvider (α ε : Type) where
  temperature : GoString → α × Option ε

/-- The slice type `multiWeatherProvider []weatherProvider`. -/
abbrev multiWeatherProvider (α ε : Type) := List (weatherProvider α ε)

/-- What the scheduler can let happen next: the goroutine spawned for provider `k`
runs (it queries the provider and sends the answer), or the `select` of the collecting
loop takes its first or its second case. -/
inductive Action where
  | send (k : Nat)
  | recvTemp
  | recvErr
  deriving DecidableEq, Repr

/-- The state of one call of `multiWeatherProvider.temperature`: the goroutines that have
not sent yet (by index of their provider in `w`), the contents of the two buffered
channels, oldest first, and the variables `i` and `sum` of the collecting loop. -/
structure State (α ε : Type) where
  pending : List Nat
  temps : List α
  errs : List ε
  i : Nat
  sum : α

/-- The effect of one action: it cannot happen now, or the call goes on in a new state,
or the call returns. -/
inductive Step (α ε : Type) where
  | blocked
  | next (s : State α ε)
  | ret (k : α) (err : Option ε)

/-- The body of the goroutine of lines 112-119 for provider `p`: it calls
`p.temperature(city)` and sends the error on `errs` if there is one, the temperature on
`temps` otherwise.  A send on a buffered channel that holds `cap` values blocks. -/
def goroutine {α ε : Type} (cap : Nat) (p : weatherProvider α ε) (city : GoString)
    (s : State α ε) : Option (State α ε) :=
  match (p.temperature city).2 with
  | some err =>
    if s.errs.length < cap then some { s with errs := s.errs ++ [err] } else none
  | none =>
    if s.temps.length < cap then some { s with temps := s.temps ++ [(p.temperature city).1] }
    else none

/-- One action of a call of `w.temperature(city)` in state `s`.  Both channels are made
with capacity `len(w)`.  `recvTemp` is `case temp := <-temps: sum += temp` followed by
`i++`; `recvErr` is `case err := <-errs: return 0, err`. -/
def step {α ε : Type} [GoFloat α] (w : multiWeatherProvider α ε) (city : GoString)
    (s : State α ε) : Action → Step α ε
  | .send k =>
    if k ∈ s.pending then
      match w[k]? with
      | some p =>
        match goroutine w.length p city { s with pending := s.pending.erase k } with
        | some s' => .next s'
        | none => .blocked
      | none => .blocked
    else .blocked
  | .recvTemp =>
    match s.temps with
    | temp :: rest => .next { s with temps := rest, sum := GoFloat.add s.sum temp, i := s.i + 1 }
    | [] => .blocked
  | .recvErr =>
    match s.errs with
    | err :: _ => .ret (GoFloat.ofConst 0 1) (some err)
    | [] => .blocked

/-- Whether an action can happen. -/
def Step.isBlocked {α ε : Type} : Step α ε → Bool
  | .blocked => true
  | _ => false

/-- The actions that can happen in state `s`, while the collecting loop is running. -/
def enabled {α ε : Type} [GoFloat α] (w : multiWeatherProvider α ε) (city : GoString)
    (s : State α ε) : List Action :=
  (s.pending.map Action.send ++ [Action.recvTemp, Action.recvErr]).filter
    (fun a => !(step w city s a).isBlocked)

/-- The choice `c` of the scheduler among the actions `as` that can happen. -/
def pick (as : List Action) (c : Nat) : Option Action := as[c % as.length]?

/-- The collecting loop `for i := 0; i < len(w); i++ { select { ... } }` and the final
`return sum / float64(len(w)), nil`, run against the goroutines under the schedule
`sched`: each number of `sched` chooses the next action among those that can happen.
The result is the list of the actions that happened and what the call returned, `none`
if `sched` ends before the call returns.  Every call `p.temperature(city)` is taken to
return: a goroutine that has not sent yet can always be scheduled. -/
def collect {α ε : Type} [GoFloat α] (w : multiWeatherProvider α ε) (city : GoString) :
    List Nat → State α ε → List Action × Option (α × Option ε)
  | [], s =>
    if s.i < w.length then ([], none)
    else ([], some (GoFloat.div s.sum (GoFloat.ofConst (w.length : Int) 1), none))
  | c :: rest, s =>
    if s.i < w.length then
      match pick (enabled w city s) c with
      | none => ([], none)
      | some a =>
        match step w city s a with
        | .blocked => ([], none)
        | .next s' => (a :: (collect w city rest s').1, (collect w city rest s').2)
        | .ret k err => ([a], some (k, err))
    else ([], some (GoFloat.div s.sum (GoFloat.ofConst (w.length : Int) 1), none))

/-- The executions of the collecting loop from state `s`, as a relation: the actions
that happen, in order, and what the call returns (`none` for an execution that is
observed before the call returns).  Any action that is not blocked may happen next. -/
inductive Exec {α ε : Type} [GoFloat α] (w : multiWeatherProvider α ε) (city : GoString) :
    State α ε → List Action → Option (α × Option ε) → Prop where
  | done (s : State α ε) (h : ¬ s.i < w.length) :
      Exec w city s [] (some (GoFloat.div s.sum (GoFloat.ofConst (w.length : Int) 1), none))
  | running (s : State α ε) (h : s.i < w.length) : Exec w city s [] none
  | ret (s : State α ε) (a : Action) (k : α) (err : Option ε) (h : s.i < w.length)
      (hs : step w city s a = .ret k err) : Exec w city s [a] (some (k, err))
  | next (s s' : State α ε) (a : Action) (tr : List Action) (r : Option (α × Option ε))
      (h : s.i < w.length) (hs : step w city s a = .next s') (hr : Exec w city s' tr r) :
      Exec w city s (a :: tr) r

/-- The state in which the collecting loop starts: one goroutine spawned for each
provider, both channels empty, `sum := 0.0` and `i := 0`. -/
def initState {α ε : Type} [GoFloat α] (w : multiWeatherProvider α ε) : State α ε where
  pending := List.range w.length
  temps := []
  errs := []
  i := 0
  sum := GoFloat.ofConst 0 1

/-- The actions of the call `w.temperature(city)` under the schedule `sched`, in the
order in which they happened. -/
def multiWeatherProvider.trace {α ε : Type} [GoFloat α] (w : multiWeatherProvider α ε)
    (city : GoString) (sched : List Nat) : List Action :=
  (collect w city sched (initState w)).1

/-- The method `func (w multiWeatherProvider) temperature(city string) (float64, error)`
under the schedule `sched`: the pair it returns, or `none` if `sched` ends before the
call returns. -/
def multiWeatherProvider.temperature {α ε : Type} [GoFloat α]
    (w : multiWeatherProvider α ε) (city : GoString) (sched : List Nat) :
    Option (α × Option ε) :=
  (collect w city sched (initState w)).2

/-- The providers whose goroutine sent, in the order of the sends. -/
def sends : List Action → List Nat
  | [] => []
  | .send k :: tr => k :: sends tr
  | _ :: tr => sends tr

/-- The temperature that the goroutine of provider `k` sends on `temps`, if it does. -/
def tempOf {α ε : Type} (w : multiWeatherProvider α ε) (city : GoString) (k : Nat) :
    Option α :=
  match w[k]? with
  | some p =>
    match (p.temperature city).2 with
    | some _ => none
    | none => some (p.temperature city).1
  | none => none

/-- The error that the goroutine of provider `k` sends on `errs`, if it does. -/
def errOf {α ε : Type} (w : multiWeatherProvider α ε) (city : GoString) (k : Nat) :
    Option ε :=
  match w[k]? with
  | some p => (p.temperature city).2
  | none => none

/-- The temperatures sent on `temps` during the actions `tr`, in the order of the sends. -/
def arrivals {α ε : Type} (w : multiWeatherProvider α ε) (city : GoString)
    (tr : List Action) : List α :=
  (sends tr).filterMap (tempOf w city)

/-- The errors sent on `errs` during the actions `tr`, in the order of the sends. -/
def failures {α ε : Type} (w : multiWeatherProvider α ε) (city : GoString)
    (tr : List Action) : List ε :=
  (sends tr).filterMap (errOf w city)

/-- A stub provider that always succeeds with the temperature `t`. -/
def okProvider {α ε : Type} (t : α) : weatherProvider α ε where
  temperature := fun _ => (t, none)

/-- A stub provider that always fails with the error `e`. -/
def failProvider {α ε : Type} [GoFloat α] (e : ε) : weatherProvider α ε where
  temperature := fun _ => (GoFloat.ofConst 0 1, some e)

/-! ## The provider adapters -/

/-- What an adapter obtains from its provider for a city: `http.Get` fails with an error,
or decoding the payload fails with an error, or the reading is decoded. -/
inductive Fetched (α ε : Type) where
  | getFailed (err : ε)
  | decodeFailed (err : ε)
  | decoded (reading : α)

/-- The method `openWeatherMap.temperature` of lines 17-36, from the outcome of the query
onwards: the decoded field `temp` is a temperature in Kelvin and is returned as it is. -/
def openWeatherMap.temperature {α ε : Type} [GoFloat α] : Fetched α ε → α × Option ε
  | .getFailed err => (GoFloat.ofConst 0 1, some err)
  | .decodeFailed err => (GoFloat.ofConst 0 1, some err)
  | .decoded kelvin => (kelvin, none)

/-- The method `forecastIo.temperature` of lines 46-66, from the outcome of the query
onwards: `kelvin := 5.0 / 9.0 * (d.Currently.Temperature - 32) + 273.15`.  `fused` is the
choice of the compiler for the target architecture: whether the multiplication and the
addition are one fused multiply-add, rounded once, or two operations, each rounded. -/
def forecastIo.temperature {α ε : Type} [GoFloat α] (fused : Bool) :
    Fetched α ε → α × Option ε
  | .getFailed err => (GoFloat.ofConst 0 1, some err)
  | .decodeFailed err => (GoFloat.ofConst 0 1, some err)
  | .decoded fahrenheit =>
    if fused then
      (GoFloat.fma (GoFloat.ofConst 5 9) (GoFloat.sub fahrenheit (GoFloat.ofConst 32 1))
        (GoFloat.ofConst 27315 100), none)
    else
      (GoFloat.add
        (GoFloat.mul (GoFloat.ofConst 5 9) (GoFloat.sub fahrenheit (GoFloat.ofConst 32 1)))
        (GoFloat.ofConst 27315 100), none)

/-- The method `weatherUnderground.temperature` of lines 72-92, from the outcome of the
query onwards: `kelvin := d.Observation.Celsius + 273.15`. -/
def weatherUnderground.temperature {α ε : Type} [GoFloat α] : Fetched α ε → α × Option ε
  | .getFailed err => (GoFloat.ofConst 0 1, some err)
  | .decodeFailed err => (GoFloat.ofConst 0 1, some err)
  | .decoded celsius => (GoFloat.add celsius (GoFloat.ofConst 27315 100), none)

/-- The provider set `mw` that `main` builds (lines 155-159): openWeatherMap,
weatherUnderground and forecastIo, in this order.  `owm`, `wu` and `fio` are what each
provider's service answers for a city; `fused` is the choice of the compiler in
`forecastIo.temperature`. -/
def mw {α ε : Type} [GoFloat α] (fused : Bool) (owm wu fio : GoString → Fetched α ε) :
    multiWeatherProvider α ε :=
  [ { temperature := fun city => openWeatherMap.temperature (owm city) },
    { temperature := fun city => weatherUnderground.temperature (wu city) },
    { temperature := fun city => forecastIo.temperature fused (fio city) } ]

/-! ## The request handler -/

/-- Go's `strings.Index(s, sep)`: the index of the first instance of `sep` in `s`, `none`
for `-1`. -/
def strings.Index : GoString → GoString → Option Nat
  | [], sep => if sep.isPrefixOf [] then some 0 else none
  | c :: s, sep =>
    if sep.isPrefixOf (c :: s) then some 0 else (strings.Index s sep).map (· + 1)

/-- The loop of Go's `genSplit`, which `strings.SplitN` runs with `n - 1` for its bound:
`for i < n { m := Index(s, sep); if m < 0 { break }; a[i] = s[:m]; s = s[m+len(sep):];
i++ }; a[i] = s`. -/
def strings.genSplit : Nat → GoString → GoString → List GoString
  | 0, s, _ => [s]
  | n + 1, s, sep =>
    match strings.Index s sep with
    | none => [s]
    | some m => s.take m :: strings.genSplit n (s.drop (m + sep.length)) sep

/-- Go's `strings.SplitN(s, sep, n)` for a separator that is not empty and `0 ≤ n`: `nil`
for `n = 0`, and otherwise at most `n` substrings (and at most `len(s) + 1`), the last of
which is the unsplit remainder.  The other cases (an empty separator, a negative `n`) are
not modelled: `none`. -/
def strings.SplitN (s sep : GoString) (n : Int) : Option (List GoString) :=
  if n = 0 then some []
  else if sep = [] ∨ n < 0 then none
  else some (strings.genSplit (min n.toNat (s.length + 1) - 1) s sep)

/-- The response a handler writes: status code, header fields set by the handler, body. -/
structure Response where
  status : Nat
  header : List (GoString × GoString)
  body : GoString
  deriving DecidableEq, Repr

/-- Go's constant `http.StatusInternalServerError`. -/
def http.StatusInternalServerError : Nat := 500

/-- Go's `http.Error(w, error, code)`: it sets the headers `Content-Type: text/plain;
charset=utf-8` and `X-Content-Type-Options: nosniff`, writes the status `code`, and
writes `error` followed by a newline as the body. -/
def http.Error (error : GoString) (code : Nat) : Response where
  status := code
  header := [(str "Content-Type", str "text/plain; charset=utf-8"),
             (str "X-Content-Type-Options", str "nosniff")]
  body := error ++ str "\n"

/-- What a request to the `/weather/` handler leads to: a run-time panic, a response, or
nothing yet (the call of `mw.temperature` has not returned). -/
inductive Served where
  | panic
  | waiting
  | response (r : Response)
  deriving DecidableEq, Repr

/-- Line 164: `city := strings.SplitN(r.URL.Path, "/", 3)[2]`; `none` is the run-time
panic of an index out of range. -/
def cityOfPath (path : GoString) : Option GoString :=
  match strings.SplitN path (str "/") 3 with
  | some a => a[2]?
  | none => none

/-- The handler of `/weather/` (lines 162-178) for the provider set `w`, on a request with
the URL path `path`, the call of `w.temperature` running under the schedule `sched`.
`errorString` is the method `Error()` of the error values; `encode city temp` is the JSON
document that `json.NewEncoder(w).Encode` writes for the map with the keys `city`, `temp`
and `took` (it contains the elapsed time, which the handler measures). -/
def weatherHandler {α ε : Type} [GoFloat α] (w : multiWeatherProvider α ε)
    (errorString : ε → GoString) (encode : GoString → α → GoString)
    (path : GoString) (sched : List Nat) : Served :=
  match cityOfPath path with
  | none => .panic
  | some city =>
    match multiWeatherProvider.temperature w city sched with
    | none => .waiting
    | some r =>
      match r.2 with
      | some err => .response (http.Error (errorString err) http.StatusInternalServerError)
      | none =>
        .response
          { status := 200
            header := [(str "Content-Type", str "application/json; charset=utf-8")]
            body := encode city r.1 }

/-! ## Provider sets used as examples -/

/-- Three providers that return `290.0`, `300.0` and `310.0`. -/
def threeProviders : multiWeatherProvider F64 String :=
  [okProvider (F64.ofConst 290 1), okProvider (F64.ofConst 300 1),
   okProvider (F64.ofConst 310 1)]

/-- Two providers: one returns `295.0`, the other fails with "timeout". -/
def timeoutProviders : multiWeatherProvider F64 String :=
  [okProvider (F64.ofConst 295 1), failProvider "timeout"]

/-- Two providers that fail, with "timeout" and with "refused". -/
def failingProviders : multiWeatherProvider F64 String :=
  [failProvider "timeout", failProvider "refused"]

/-- The `float64` next above `300.0`: `300 + 2^-44`, printed `300.00000000000006`. -/
def above300 : F64 := F64.fin false 5277655813324801 (-44)

/-- Three providers that return `300.00000000000006`, `300.00000000000006` and `300.0`. -/
def roundingProviders : multiWeatherProvider F64 String :=
  [okProvider above300, okProvider above300, okProvider (F64.ofConst 300 1)]

/-- The second `float64` above `300.0`: `300 + 2^-43`, printed `300.0000000000001`. -/
def twoAbove300 : F64 := F64.fin false 5277655813324802 (-44)

/-- Three providers that return `300.0`, `300.00000000000006` and `300.0000000000001`. -/
def tieProviders : multiWeatherProvider F64 String :=
  [okProvider (F64.ofConst 300 1), okProvider above300, okProvider twoAbove300]

/-- Three providers that return `9007199254740992.0` (which is `2^53`), `1.0` and `1.0`. -/
def largeProviders : multiWeatherProvider F64 String :=
  [okProvider (F64.ofConst 9007199254740992 1), okProvider (F64.ofConst 1 1),
   okProvider (F64.ofConst 1 1)]

/-- The invariant of the collecting loop, in terms of the list `sent` of the providers
whose goroutine has sent so far (in the order of the sends): every goroutine either has
sent or is pending; `errs` holds every error sent (none has been received); the
temperatures sent are those received, `i` of them, followed by the contents of `temps`;
`sum` is the sum of those received, in that order. -/
structure Inv {α ε : Type} [GoFloat α] (w : multiWeatherProvider α ε) (city : GoString)
    (sent : List Nat) (s : State α ε) : Prop where
  perm : (sent ++ s.pending).Perm (List.range w.length)
  errs : s.errs = sent.filterMap (errOf w city)
  le : s.i ≤ (sent.filterMap (tempOf w city)).length
  temps : s.temps = (sent.filterMap (tempOf w city)).drop s.i
  sum : s.sum = fsum ((sent.filterMap (tempOf w city)).take s.i)

/-! ## Lemmas on the collecting loop -/

section Lemmas

theorem sends_cons (a : Action) (tr : List Action) : sends (a :: tr) = sends [a] ++ sends tr := by
  cases a <;> simp [sends]

theorem tempOf_errOf_of_lt {α ε : Type} (w : multiWeatherProvider α ε) (city : GoString) {k : Nat}
    (hk : k < w.length) :
    ((tempOf w city k).isSome = true ∧ errOf w city k = none) ∨
      (tempOf w city k = none ∧ (errOf w city k).isSome = true) := by
  have h : w[k]? = some w[k] := List.getElem?_eq_getElem hk
  unfold tempOf errOf
  rw [h]
  rcases hp : ((w[k]).temperature city).2 with _ | e <;> simp [hp]

theorem length_filterMap_add {α ε : Type} (w : multiWeatherProvider α ε) (city : GoString) :
    ∀ S : List Nat, (∀ k ∈ S, k < w.length) →
      (S.filterMap (tempOf w city)).length + (S.filterMap (errOf w city)).length = S.length
  | [], _ => by simp
  | k :: S, h => by
    have ih := length_filterMap_add w city S (fun j hj => h j (List.mem_cons_of_mem _ hj))
    rcases tempOf_errOf_of_lt w city (h k (List.mem_cons_self _ _)) with ⟨h1, h2⟩ | ⟨h1, h2⟩
    · obtain ⟨t, ht⟩ := Option.isSome_iff_exists.mp h1
      rw [List.filterMap_cons_some ht, List.filterMap_cons_none h2]
      simp only [List.length_cons]; omega
    · obtain ⟨e, he⟩ := Option.isSome_iff_exists.mp h2
      rw [List.filterMap_cons_none h1, List.filterMap_cons_some he]
      simp only [List.length_cons]; omega

theorem Inv.length_eq {α ε : Type} [GoFloat α] {w : multiWeatherProvider α ε} {city : GoString} {sent : List Nat}
    {s : State α ε} (h : Inv w city sent s) : sent.length + s.pending.length = w.length := by
  have := h.perm.length_eq
  simpa using this

theorem Inv.lt_of_mem_sent {α ε : Type} [GoFloat α] {w : multiWeatherProvider α ε} {city : GoString} {sent : List Nat}
    {s : State α ε} (h : Inv w city sent s) : ∀ k ∈ sent, k < w.length := by
  intro k hk
  have : k ∈ List.range w.length := h.perm.subset (List.mem_append_left _ hk)
  simpa using this

theorem Inv.lt_of_mem_pending {α ε : Type} [GoFloat α] {w : multiWeatherProvider α ε} {city : GoString}
    {sent : List Nat} {s : State α ε} (h : Inv w city sent s) :
    ∀ k ∈ s.pending, k < w.length := by
  intro k hk
  have : k ∈ List.range w.length := h.perm.subset (List.mem_append_right _ hk)
  simpa using this

theorem inv_initState {α ε : Type} [GoFloat α] (w : multiWeatherProvider α ε) (city : GoString) :
    Inv w city [] (initState w) := by
  constructor <;> simp [initState, fsum]

theorem fsum_append_singleton {α : Type} [GoFloat α] (l : List α) (t : α) :
    fsum (l ++ [t]) = GoFloat.add (fsum l) t := by
  simp [fsum, List.foldl_append]

/-- A goroutine that is pending can always send, and the invariant is kept. -/
theorem step_send {α ε : Type} [GoFloat α] {w : multiWeatherProvider α ε} {city : GoString}
    {sent : List Nat} {s : State α ε} (h : Inv w city sent s) {k : Nat} (hk : k ∈ s.pending) :
    ∃ s', step w city s (.send k) = .next s' ∧ Inv w city (sent ++ [k]) s' ∧
      s'.i = s.i ∧ s'.pending.length + 1 = s.pending.length := by
  have hlt : k < w.length := h.lt_of_mem_pending k hk
  have hw : w[k]? = some w[k] := List.getElem?_eq_getElem hlt
  have hlen := h.length_eq
  have hpos : 0 < s.pending.length := List.length_pos_of_mem hk
  have hT : (sent.filterMap (tempOf w city)).length ≤ sent.length := List.length_filterMap_le _ _
  have hE : (sent.filterMap (errOf w city)).length ≤ sent.length := List.length_filterMap_le _ _
  have hperm : (sent ++ [k] ++ s.pending.erase k).Perm (List.range w.length) := by
    refine List.Perm.trans ?_ h.perm
    rw [List.append_assoc]
    exact List.Perm.append_left _ (List.perm_cons_erase hk).symm
  have herase : (s.pending.erase k).length + 1 = s.pending.length := by
    rw [List.length_erase_of_mem hk]; omega
  rcases hp : ((w[k]).temperature city).2 with _ | e
  · have hcap : s.temps.length < w.length := by
      rw [h.temps, List.length_drop]; omega
    have htk : tempOf w city k = some ((w[k]).temperature city).1 := by
      simp [tempOf, hw, hp]
    have hek : errOf w city k = none := by simp [errOf, hw, hp]
    refine ⟨{ s with pending := s.pending.erase k,
                     temps := s.temps ++ [((w[k]).temperature city).1] }, ?_, ?_, rfl, herase⟩
    · simp [step, hk, hw, goroutine, hp, hcap]
    · have hf : (sent ++ [k]).filterMap (tempOf w city)
          = sent.filterMap (tempOf w city) ++ [((w[k]).temperature city).1] := by
        simp [List.filterMap_append, htk]
      refine ⟨hperm, ?_, ?_, ?_, ?_⟩
      · simp [List.filterMap_append, hek, h.errs]
      · rw [hf]; simp only [List.length_append, List.length_singleton]
        have := h.le; omega
      · rw [hf, List.drop_append_of_le_length h.le]; simp [h.temps]
      · rw [hf, List.take_append_of_le_length h.le]; exact h.sum
  · have hcap : s.errs.length < w.length := by
      rw [h.errs]; omega
    have htk : tempOf w city k = none := by simp [tempOf, hw, hp]
    have hek : errOf w city k = some e := by simp [errOf, hw, hp]
    refine ⟨{ s with pending := s.pending.erase k, errs := s.errs ++ [e] }, ?_, ?_, rfl, herase⟩
    · simp [step, hk, hw, goroutine, hp, hcap]
    · have hf : (sent ++ [k]).filterMap (tempOf w city) = sent.filterMap (tempOf w city) := by
        simp [List.filterMap_append, htk]
      refine ⟨hperm, ?_, ?_, ?_, ?_⟩
      · simp [List.filterMap_append, hek, h.errs]
      · rw [hf]; exact h.le
      · rw [hf]; exact h.temps
      · rw [hf]; exact h.sum

/-- Receiving a temperature keeps the invariant and counts one more signal. -/
theorem step_recvTemp {α ε : Type} [GoFloat α] {w : multiWeatherProvider α ε}
    {city : GoString} {sent : List Nat} {s s' : State α ε} (h : Inv w city sent s)
    (hs : step w city s .recvTemp = .next s') :
    Inv w city sent s' ∧ s'.i = s.i + 1 ∧ s'.pending = s.pending := by
  rcases ht : s.temps with _ | ⟨t, rest⟩
  · simp [step, ht] at hs
  · simp only [step, ht, Step.next.injEq] at hs
    subst hs
    have hd := h.temps
    rw [ht] at hd
    have hlt : s.i < (sent.filterMap (tempOf w city)).length := by
      by_contra hge
      rw [List.drop_eq_nil_of_le (by omega)] at hd
      exact List.cons_ne_nil _ _ hd
    have hget : (sent.filterMap (tempOf w city))[s.i] = t := by
      have := List.drop_eq_getElem_cons hlt
      rw [← hd] at this
      exact (List.cons.inj this).1.symm
    have hrest : rest = (sent.filterMap (tempOf w city)).drop (s.i + 1) := by
      have := List.drop_eq_getElem_cons hlt
      rw [← hd] at this
      exact (List.cons.inj this).2
    refine ⟨⟨h.perm, h.errs, hlt, hrest, ?_⟩, rfl, rfl⟩
    show GoFloat.add s.sum t = _
    rw [List.take_succ, List.getElem?_eq_getElem hlt, hget]
    simp only [Option.toList_some]
    rw [fsum_append_singleton, h.sum]

/-- Every action that goes on keeps the invariant; a send extends the list of senders. -/
theorem step_next {α ε : Type} [GoFloat α] {w : multiWeatherProvider α ε} {city : GoString}
    {sent : List Nat} {s s' : State α ε} (h : Inv w city sent s) {a : Action}
    (hs : step w city s a = .next s') :
    Inv w city (sent ++ sends [a]) s' ∧
      s'.pending.length + (w.length - s'.i) + 1 = s.pending.length + (w.length - s.i) ∨
      ¬ s.i < w.length := by
  by_cases hi : s.i < w.length
  swap
  · exact Or.inr hi
  left
  cases a with
  | send k =>
    by_cases hk : k ∈ s.pending
    · obtain ⟨s'', h1, h2, h3, h4⟩ := step_send h hk
      rw [h1] at hs
      cases hs
      refine ⟨by simpa [sends] using h2, ?_⟩
      omega
    · simp [step, hk] at hs
  | recvTemp =>
    obtain ⟨h1, h2, h3⟩ := step_recvTemp h hs
    refine ⟨by simpa [sends] using h1, ?_⟩
    rw [h3]; omega
  | recvErr =>
    rcases he : s.errs with _ | ⟨e, rest⟩ <;> simp [step, he] at hs

/-- The only action that returns is the receipt of the oldest error of `errs`, and it
returns `0` with that error. -/
theorem step_ret {α ε : Type} [GoFloat α] {w : multiWeatherProvider α ε} {city : GoString}
    {s : State α ε} {a : Action} {k : α} {err : Option ε}
    (hs : step w city s a = .ret k err) :
    a = .recvErr ∧ k = GoFloat.ofConst 0 1 ∧ ∃ e, err = some e ∧ s.errs.head? = some e := by
  cases a with
  | send j =>
    simp only [step] at hs
    split at hs
    · split at hs
      · split at hs <;> simp at hs
      · simp at hs
    · simp at hs
  | recvTemp =>
    rcases ht : s.temps with _ | ⟨t, rest⟩ <;> simp [step, ht] at hs
  | recvErr =>
    rcases he : s.errs with _ | ⟨e, rest⟩
    · simp [step, he] at hs
    · simp only [step, he, Step.ret.injEq] at hs
      exact ⟨rfl, hs.1.symm, e, hs.2.symm, by simp⟩

theorem pick_mem {as : List Action} {c : Nat} {a : Action} (h : pick as c = some a) :
    a ∈ as := by
  unfold pick at h
  exact List.getElem?_mem h

theorem pick_isSome {as : List Action} (c : Nat) (h : as ≠ []) : ∃ a, pick as c = some a := by
  have hpos : 0 < as.length := List.length_pos.mpr h
  have hlt : c % as.length < as.length := Nat.mod_lt _ hpos
  exact ⟨as[c % as.length], by simp [pick, List.getElem?_eq_getElem hlt]⟩

/-- While the loop is running, some action can happen: no deadlock. -/
theorem enabled_ne_nil {α ε : Type} [GoFloat α] {w : multiWeatherProvider α ε}
    {city : GoString} {sent : List Nat} {s : State α ε} (h : Inv w city sent s)
    (hi : s.i < w.length) : enabled w city s ≠ [] := by
  rcases hp : s.pending with _ | ⟨k, rest⟩
  · -- every goroutine has sent
    have hlen := h.length_eq
    rw [hp] at hlen
    have hadd := length_filterMap_add w city sent h.lt_of_mem_sent
    rcases he : s.errs with _ | ⟨e, erest⟩
    · have hE : (sent.filterMap (errOf w city)).length = 0 := by rw [← h.errs, he]; rfl
      have hlt : s.i < (sent.filterMap (tempOf w city)).length := by
        simp only [List.length_nil, Nat.add_zero] at hlen; omega
      have hd := List.drop_eq_getElem_cons hlt
      rw [← h.temps] at hd
      intro hnil
      have hmem : Action.recvTemp ∈ enabled w city s := by
        simp only [enabled, List.mem_filter, List.mem_append, List.mem_map]
        refine ⟨Or.inr (by simp), ?_⟩
        simp only [step, hd]; rfl
      rw [hnil] at hmem
      exact List.not_mem_nil _ hmem
    · intro hnil
      have hmem : Action.recvErr ∈ enabled w city s := by
        simp [enabled, step, he, Step.isBlocked]
      rw [hnil] at hmem
      exact List.not_mem_nil _ hmem
  · have hk : k ∈ s.pending := by rw [hp]; exact List.mem_cons_self _ _
    obtain ⟨s', h1, _⟩ := step_send h hk
    intro hnil
    have hmem : Action.send k ∈ enabled w city s := by
      simp only [enabled, List.mem_filter, List.mem_append, List.mem_map]
      refine ⟨Or.inl ⟨k, hk, rfl⟩, ?_⟩
      rw [h1]; rfl
    rw [hnil] at hmem
    exact List.not_mem_nil _ hmem

/-- An action that is not blocked is one of those the scheduler chooses from. -/
theorem mem_enabled_of_step {α ε : Type} [GoFloat α] {w : multiWeatherProvider α ε}
    {city : GoString} {s : State α ε} {a : Action}
    (h : (step w city s a).isBlocked = false) : a ∈ enabled w city s := by
  simp only [enabled, List.mem_filter, List.mem_append, List.mem_map, h, Bool.not_false,
    and_true]
  cases a with
  | send k =>
    left
    refine ⟨k, ?_, rfl⟩
    by_contra hk
    simp [step, hk, Step.isBlocked] at h
  | recvTemp => right; simp
  | recvErr => right; simp

theorem exists_pick_of_mem {as : List Action} {a : Action} (h : a ∈ as) :
    ∃ c, pick as c = some a := by
  obtain ⟨n, hn, hget⟩ := List.mem_iff_getElem.mp h
  refine ⟨n, ?_⟩
  unfold pick
  rw [Nat.mod_eq_of_lt hn, List.getElem?_eq_getElem hn, hget]

/-- Every execution of the collecting loop is the run of some schedule: the schedules
cover all the orders in which the goroutines can send and all the choices of the
`select`. -/
theorem exists_sched_of_exec {α ε : Type} [GoFloat α] (w : multiWeatherProvider α ε)
    (city : GoString) (s : State α ε) (tr : List Action) (r : Option (α × Option ε))
    (h : Exec w city s tr r) : ∃ sched, collect w city sched s = (tr, r) := by
  induction h with
  | done s h => exact ⟨[], by simp [collect, h]⟩
  | running s h => exact ⟨[], by simp [collect, h]⟩
  | ret s a k err h hs =>
    have hb : (step w city s a).isBlocked = false := by rw [hs]; rfl
    obtain ⟨c, hc⟩ := exists_pick_of_mem (mem_enabled_of_step hb)
    exact ⟨[c], by simp [collect, h, hc, hs]⟩
  | next s s' a tr r h hs _ ih =>
    have hb : (step w city s a).isBlocked = false := by rw [hs]; rfl
    obtain ⟨c, hc⟩ := exists_pick_of_mem (mem_enabled_of_step hb)
    obtain ⟨sched, hsched⟩ := ih
    exact ⟨c :: sched, by simp [collect, h, hc, hs, hsched]⟩

/-- Every run of a schedule is an execution of the collecting loop. -/
theorem exec_of_collect {α ε : Type} [GoFloat α] (w : multiWeatherProvider α ε)
    (city : GoString) :
    ∀ (sched : List Nat) (s : State α ε),
      Exec w city s (collect w city sched s).1 (collect w city sched s).2 := by
  intro sched
  induction sched with
  | nil =>
    intro s
    by_cases hi : s.i < w.length
    · simp only [collect, hi, if_true]; exact Exec.running s hi
    · simp only [collect, hi, if_false]; exact Exec.done s hi
  | cons c rest ih =>
    intro s
    by_cases hi : s.i < w.length
    · unfold collect
      simp only [hi, if_true]
      rcases hp : pick (enabled w city s) c with _ | a
      · exact Exec.running s hi
      · simp only []
        rcases hs : step w city s a with _ | s' | ⟨k, err⟩
        · exact Exec.running s hi
        · exact Exec.next s s' a _ _ hi hs (ih s')
        · exact Exec.ret s a k err hi hs
    · simp only [collect, hi, if_false]; exact Exec.done s hi

/-- The state in which a call that returns does so: the invariant holds there for the
goroutines that sent during the call, and either the loop has ended and the call returns
`sum / float64(len(w))`, or the loop is running and the call returns `0` with the oldest
error of `errs`. -/
theorem collect_final {α ε : Type} [GoFloat α] (w : multiWeatherProvider α ε)
    (city : GoString) :
    ∀ (sched : List Nat) (s : State α ε) (sent : List Nat), Inv w city sent s →
      ∀ r, (collect w city sched s).2 = some r →
        ∃ sf, Inv w city (sent ++ sends (collect w city sched s).1) sf ∧
          ((¬ sf.i < w.length ∧
              r = (GoFloat.div sf.sum (GoFloat.ofConst (w.length : Int) 1), none)) ∨
            (sf.i < w.length ∧ ∃ e, sf.errs.head? = some e ∧
              r = (GoFloat.ofConst 0 1, some e))) := by
  intro sched
  induction sched with
  | nil =>
    intro s sent h r hr
    unfold collect at hr ⊢
    by_cases hi : s.i < w.length
    · simp [hi] at hr
    · simp only [hi, if_false, Option.some.injEq] at hr ⊢
      exact ⟨s, by simpa [sends] using h, Or.inl ⟨hi, hr.symm⟩⟩
  | cons c rest ih =>
    intro s sent h r hr
    unfold collect at hr ⊢
    by_cases hi : s.i < w.length
    · simp only [hi, if_true] at hr ⊢
      rcases hp : pick (enabled w city s) c with _ | a
      · simp [hp] at hr
      · simp only [hp] at hr ⊢
        rcases hs : step w city s a with _ | s' | ⟨k, err⟩
        · simp [hs] at hr
        · simp only [hs] at hr ⊢
          rcases step_next h hs with ⟨hinv, _⟩ | hn
          · obtain ⟨sf, h1, h2⟩ := ih s' _ hinv r hr
            refine ⟨sf, ?_, h2⟩
            rw [sends_cons, ← List.append_assoc]
            exact h1
          · exact absurd hi hn
        · simp only [hs, Option.some.injEq] at hr ⊢
          obtain ⟨ha, hk, e, he, hhead⟩ := step_ret hs
          subst ha
          refine ⟨s, by simpa [sends] using h, Or.inr ⟨hi, e, hhead, ?_⟩⟩
          rw [← hr, hk, he]
    · simp only [hi, if_false, Option.some.injEq] at hr ⊢
      exact ⟨s, by simpa [sends] using h, Or.inl ⟨hi, hr.symm⟩⟩

/-- A call returns as soon as the schedule is long enough for every pending goroutine to
send and every missing signal to be received. -/
theorem collect_returns {α ε : Type} [GoFloat α] (w : multiWeatherProvider α ε)
    (city : GoString) :
    ∀ (sched : List Nat) (s : State α ε) (sent : List Nat), Inv w city sent s →
      s.pending.length + (w.length - s.i) ≤ sched.length →
        ∃ r, (collect w city sched s).2 = some r := by
  intro sched
  induction sched with
  | nil =>
    intro s sent _ hlen
    have hi : ¬ s.i < w.length := by
      simp only [List.length_nil] at hlen; omega
    exact ⟨(GoFloat.div s.sum (GoFloat.ofConst (w.length : Int) 1), none), by simp [collect, hi]⟩
  | cons c rest ih =>
    intro s sent h hlen
    unfold collect
    by_cases hi : s.i < w.length
    · simp only [hi, if_true]
      obtain ⟨a, hp⟩ := pick_isSome c (enabled_ne_nil h hi)
      have hmem := pick_mem hp
      simp only [enabled, List.mem_filter] at hmem
      simp only [hp]
      rcases hs : step w city s a with _ | s' | ⟨k, err⟩
      · rw [hs] at hmem; simp [Step.isBlocked] at hmem
      · simp only []
        rcases step_next h hs with ⟨hinv, hm⟩ | hn
        · refine ih s' _ hinv ?_
          simp only [List.length_cons] at hlen; omega
        · exact absurd hi hn
      · exact ⟨_, rfl⟩
    · exact ⟨(GoFloat.div s.sum (GoFloat.ofConst (w.length : Int) 1), none), by simp [hi]⟩

theorem errOf_eq_some_iff {α ε : Type} (w : multiWeatherProvider α ε) (city : GoString)
    (k : Nat) (e : ε) :
    errOf w city k = some e ↔ ∃ p, w[k]? = some p ∧ (p.temperature city).2 = some e := by
  unfold errOf
  rcases hw : w[k]? with _ | p <;> simp

theorem errOf_eq_none_of_forall {α ε : Type} {w : multiWeatherProvider α ε} {city : GoString}
    (hall : ∀ p ∈ w, (p.temperature city).2 = none) (k : Nat) : errOf w city k = none := by
  unfold errOf
  rcases hw : w[k]? with _ | p
  · rfl
  · exact hall p (List.getElem?_mem hw)

theorem exists_errOf_of_mem {α ε : Type} {w : multiWeatherProvider α ε} {city : GoString}
    {p : weatherProvider α ε} (hp : p ∈ w) {e : ε} (he : (p.temperature city).2 = some e) :
    ∃ k, k < w.length ∧ errOf w city k = some e := by
  obtain ⟨k, hk, hkp⟩ := List.mem_iff_getElem.mp hp
  refine ⟨k, hk, ?_⟩
  rw [errOf_eq_some_iff]
  exact ⟨p, by rw [List.getElem?_eq_getElem hk, hkp], he⟩

/-- When every provider succeeds, the temperatures the goroutines send are, in the order
of the providers, the temperatures the providers return. -/
theorem filterMap_tempOf_range {α ε : Type} (city : GoString) :
    ∀ w : multiWeatherProvider α ε, (∀ p ∈ w, (p.temperature city).2 = none) →
      (List.range w.length).filterMap (tempOf w city)
        = w.map (fun p => (p.temperature city).1) := by
  intro w
  induction w using List.reverseRecOn with
  | nil => intro _; rfl
  | append_singleton l p ih =>
    intro hall
    have hl : ∀ q ∈ l, (q.temperature city).2 = none :=
      fun q hq => hall q (List.mem_append_left _ hq)
    have hp : (p.temperature city).2 = none :=
      hall p (List.mem_append_right _ (List.mem_singleton_self p))
    rw [List.length_append, List.length_singleton, List.range_succ, List.filterMap_append,
      List.map_append]
    congr 1
    · rw [← ih hl]
      apply List.filterMap_congr
      intro k hk
      have hk' : k < l.length := by simpa using hk
      simp only [tempOf, List.getElem?_append_left hk']
    · simp [tempOf, hp]

/-- The call returns when the schedule has two steps for each provider. -/
theorem temperature_returns {α ε : Type} [GoFloat α] (w : multiWeatherProvider α ε)
    (city : GoString) (sched : List Nat) (hlen : 2 * w.length ≤ sched.length) :
    ∃ r, multiWeatherProvider.temperature w city sched = some r := by
  refine collect_returns w city sched (initState w) [] (inv_initState w city) ?_
  simp only [initState, List.length_range]
  omega

/-- A call that returns a temperature: every goroutine sent, none of them an error, and
the temperature is the sum of the temperatures in the order they were sent, divided by
`float64(len(w))`. -/
theorem temperature_value {α ε : Type} [GoFloat α] {w : multiWeatherProvider α ε}
    {city : GoString} {sched : List Nat} {v : α}
    (h : multiWeatherProvider.temperature w city sched = some (v, none)) :
    (sends (multiWeatherProvider.trace w city sched)).Perm (List.range w.length) ∧
      (arrivals w city (multiWeatherProvider.trace w city sched)).length = w.length ∧
      failures w city (multiWeatherProvider.trace w city sched) = [] ∧
      v = GoFloat.div (fsum (arrivals w city (multiWeatherProvider.trace w city sched)))
            (GoFloat.ofConst (w.length : Int) 1) := by
  obtain ⟨sf, hinv, hcase⟩ := collect_final w city sched (initState w) [] (inv_initState w city) _ h
  simp only [List.nil_append] at hinv
  rcases hcase with ⟨hi, hr⟩ | ⟨_, e, _, hr⟩
  swap
  · simp at hr
  have hlen := hinv.length_eq
  have hle := hinv.le
  have hT : ((sends (collect w city sched (initState w)).1).filterMap (tempOf w city)).length
      ≤ (sends (collect w city sched (initState w)).1).length := List.length_filterMap_le _ _
  have hadd := length_filterMap_add w city _ hinv.lt_of_mem_sent
  have hpend : sf.pending = [] := List.length_eq_zero.mp (by omega)
  have hperm := hinv.perm
  rw [hpend, List.append_nil] at hperm
  have hE : (sends (collect w city sched (initState w)).1).filterMap (errOf w city) = [] :=
    List.length_eq_zero.mp (by omega)
  have hTn : ((sends (collect w city sched (initState w)).1).filterMap (tempOf w city)).length
      = w.length := by omega
  refine ⟨hperm, hTn, hE, ?_⟩
  have hsum := hinv.sum
  rw [List.take_of_length_le (by omega)] at hsum
  simp only [Prod.mk.injEq, and_true] at hr
  rw [hr, hsum]
  rfl

/-- A call that returns an error: it returns `0` and the first error sent on `errs`, which
is the error of one of the providers. -/
theorem temperature_error {α ε : Type} [GoFloat α] {w : multiWeatherProvider α ε}
    {city : GoString} {sched : List Nat} {v : α} {e : ε}
    (h : multiWeatherProvider.temperature w city sched = some (v, some e)) :
    v = GoFloat.ofConst 0 1 ∧
      (failures w city (multiWeatherProvider.trace w city sched)).head? = some e ∧
      ∃ k, k < w.length ∧ errOf w city k = some e := by
  obtain ⟨sf, hinv, hcase⟩ := collect_final w city sched (initState w) [] (inv_initState w city) _ h
  simp only [List.nil_append] at hinv
  rcases hcase with ⟨_, hr⟩ | ⟨_, e', hhead, hr⟩
  · simp at hr
  simp only [Prod.mk.injEq, Option.some.injEq] at hr
  obtain ⟨hv, he⟩ := hr
  subst he
  rw [hinv.errs] at hhead
  refine ⟨hv, hhead, ?_⟩
  have hmem : e ∈ (sends (collect w city sched (initState w)).1).filterMap (errOf w city) :=
    List.mem_of_mem_head? hhead
  obtain ⟨k, hk, hke⟩ := List.mem_filterMap.mp hmem
  exact ⟨k, hinv.lt_of_mem_sent k hk, hke⟩

theorem step_next_i {α ε : Type} [GoFloat α] {w : multiWeatherProvider α ε} {city : GoString}
    {s s' : State α ε} {a : Action} (hs : step w city s a = .next s') :
    a ≠ .recvErr ∧ s'.i = s.i + (if a = .recvTemp then 1 else 0) := by
  cases a with
  | send k =>
    refine ⟨by simp, ?_⟩
    simp only [step, goroutine] at hs
    split at hs
    · split at hs
      · split at hs
        · rename_i heq
          split at heq
          · split at heq
            · cases heq; cases hs; simp
            · simp at heq
          · split at heq
            · cases heq; cases hs; simp
            · simp at heq
        · simp at hs
      · simp at hs
    · simp at hs
  | recvTemp =>
    rcases ht : s.temps with _ | ⟨t, rest⟩
    · simp [step, ht] at hs
    · simp only [step, ht, Step.next.injEq] at hs
      subst hs
      simp
  | recvErr =>
    rcases he : s.errs with _ | ⟨e, rest⟩ <;> simp [step, he] at hs

/-- The receipts of a call that returns: without an error, the loop has counted up to
`len(w)` by receiving temperatures only; with an error, the receipt of the error is the
last action and the only receipt of an error, and the loop had not counted up to
`len(w)` yet. -/
theorem collect_counts {α ε : Type} [GoFloat α] (w : multiWeatherProvider α ε)
    (city : GoString) :
    ∀ (sched : List Nat) (s : State α ε) (r : α × Option ε),
      (collect w city sched s).2 = some r →
        (r.2 = none → (collect w city sched s).1.count .recvErr = 0 ∧
          (s.i ≤ w.length → s.i + (collect w city sched s).1.count .recvTemp = w.length)) ∧
        (∀ e, r.2 = some e → (collect w city sched s).1.count .recvErr = 1 ∧
          (collect w city sched s).1.getLast? = some .recvErr ∧
          s.i + (collect w city sched s).1.count .recvTemp < w.length) := by
  intro sched
  induction sched with
  | nil =>
    intro s r hr
    unfold collect at hr ⊢
    by_cases hi : s.i < w.length
    · simp [hi] at hr
    · simp only [hi, if_false, Option.some.injEq] at hr ⊢
      subst hr
      refine ⟨fun _ => ⟨by simp, fun hle => by simp; omega⟩, fun e he => by simp at he⟩
  | cons c rest ih =>
    intro s r hr
    unfold collect at hr ⊢
    by_cases hi : s.i < w.length
    · simp only [hi, if_true] at hr ⊢
      rcases hp : pick (enabled w city s) c with _ | a
      · simp [hp] at hr
      · simp only [hp] at hr ⊢
        rcases hs : step w city s a with _ | s' | ⟨k, err⟩
        · simp [hs] at hr
        · simp only [hs] at hr ⊢
          obtain ⟨hne, hi'⟩ := step_next_i hs
          obtain ⟨ih1, ih2⟩ := ih s' r hr
          have hcE : (a :: (collect w city rest s').1).count .recvErr
              = (collect w city rest s').1.count .recvErr :=
            List.count_cons_of_ne (Ne.symm hne) _
          have hcT : (a :: (collect w city rest s').1).count .recvTemp
              = (collect w city rest s').1.count .recvTemp + (if a = .recvTemp then 1 else 0) := by
            rw [List.count_cons]
            by_cases ha : a = .recvTemp <;> simp [ha]
          refine ⟨fun hn => ?_, fun e he => ?_⟩
          · obtain ⟨h1, h2⟩ := ih1 hn
            refine ⟨by rw [hcE]; exact h1, fun hle => ?_⟩
            rw [hcT]
            have : s'.i ≤ w.length := by
              rw [hi']; split <;> omega
            have := h2 this
            omega
          · obtain ⟨h1, h2, h3⟩ := ih2 e he
            refine ⟨by rw [hcE]; exact h1, ?_, by rw [hcT]; omega⟩
            rcases htr : (collect w city rest s').1 with _ | ⟨b, tr⟩
            · rw [htr] at h2; simp at h2
            · rw [htr] at h2
              rw [List.getLast?_cons_cons]; exact h2
        · simp only [hs, Option.some.injEq] at hr ⊢
          obtain ⟨ha, _, e, he, _⟩ := step_ret hs
          subst ha hr
          refine ⟨fun hn => ?_, fun e' _ => ⟨by simp, by simp, by simpa using hi⟩⟩
          simp [he] at hn
    · simp only [hi, if_false, Option.some.injEq] at hr ⊢
      subst hr
      refine ⟨fun _ => ⟨by simp, fun hle => by simp; omega⟩, fun e he => by simp at he⟩

/-- In a call that returns, no goroutine sends twice, and those that send are the
goroutines of the providers of `w`. -/
theorem sends_nodup {α ε : Type} [GoFloat α] {w : multiWeatherProvider α ε}
    {city : GoString} {sched : List Nat} {r : α × Option ε}
    (h : multiWeatherProvider.temperature w city sched = some r) :
    (sends (multiWeatherProvider.trace w city sched)).Nodup ∧
      ∀ k ∈ sends (multiWeatherProvider.trace w city sched), k < w.length := by
  obtain ⟨sf, hinv, _⟩ := collect_final w city sched (initState w) [] (inv_initState w city) _ h
  simp only [List.nil_append] at hinv
  have hnd : (sends (collect w city sched (initState w)).1 ++ sf.pending).Nodup :=
    hinv.perm.nodup_iff.mpr (List.nodup_range _)
  exact ⟨(List.nodup_append.mp hnd).1, hinv.lt_of_mem_sent⟩

/-- When every provider succeeds, a call whose schedule has two steps for each provider
returns the sum of the temperatures in the order they were sent, divided by
`float64(len(w))`, and no error. -/
theorem temperature_all_ok {α ε : Type} [GoFloat α] (w : multiWeatherProvider α ε)
    (city : GoString) (sched : List Nat)
    (hall : ∀ p ∈ w, (p.temperature city).2 = none)
    (hlen : 2 * w.length ≤ sched.length) :
    (arrivals w city (multiWeatherProvider.trace w city sched)).Perm
        (w.map (fun p => (p.temperature city).1)) ∧
      multiWeatherProvider.temperature w city sched
        = some (GoFloat.div (fsum (arrivals w city (multiWeatherProvider.trace w city sched)))
            (GoFloat.ofConst (w.length : Int) 1), none) := by
  obtain ⟨⟨v, err⟩, hr⟩ := temperature_returns w city sched hlen
  rcases err with _ | e
  · obtain ⟨hperm, _, _, hv⟩ := temperature_value hr
    refine ⟨?_, by rw [hr, hv]⟩
    rw [← filterMap_tempOf_range city w hall]
    exact hperm.filterMap _
  · obtain ⟨_, _, k, _, hk⟩ := temperature_error hr
    rw [errOf_eq_none_of_forall hall k] at hk
    simp at hk

/-- A call that returns a temperature and no error: every provider succeeded. -/
theorem all_ok_of_value {α ε : Type} [GoFloat α] {w : multiWeatherProvider α ε}
    {city : GoString} {sched : List Nat} {v : α}
    (h : multiWeatherProvider.temperature w city sched = some (v, none)) :
    ∀ q ∈ w, (q.temperature city).2 = none := by
  intro q hq
  obtain ⟨hperm, _, hE, _⟩ := temperature_value h
  rcases hqe : (q.temperature city).2 with _ | e
  · rfl
  · obtain ⟨k, hk, hke⟩ := exists_errOf_of_mem hq hqe
    have hmem : k ∈ sends (multiWeatherProvider.trace w city sched) :=
      hperm.symm.subset (List.mem_range.mpr hk)
    have : e ∈ failures w city (multiWeatherProvider.trace w city sched) :=
      List.mem_filterMap.mpr ⟨k, hmem, hke⟩
    rw [hE] at this
    exact absurd this (List.not_mem_nil _)

/-- When some provider fails, a call whose schedule has two steps for each provider
returns `0` and the first error sent on `errs`. -/
theorem temperature_some_fail {α ε : Type} [GoFloat α] (w : multiWeatherProvider α ε)
    (city : GoString) (sched : List Nat) (p : weatherProvider α ε) (hp : p ∈ w)
    (hfail : (p.temperature city).2 ≠ none) (hlen : 2 * w.length ≤ sched.length) :
    ∃ e, (failures w city (multiWeatherProvider.trace w city sched)).head? = some e ∧
      (∃ q ∈ w, (q.temperature city).2 = some e) ∧
      multiWeatherProvider.temperature w city sched = some (GoFloat.ofConst 0 1, some e) := by
  obtain ⟨⟨v, err⟩, hr⟩ := temperature_returns w city sched hlen
  rcases err with _ | e
  · exact absurd (all_ok_of_value hr p hp) hfail
  · obtain ⟨hv, hhead, k, _, hk⟩ := temperature_error hr
    obtain ⟨q, hq, hqe⟩ := (errOf_eq_some_iff w city k e).mp hk
    exact ⟨e, hhead, ⟨q, List.getElem?_mem hq, hqe⟩, by rw [hr, hv]⟩

/-- Once a call has returned, a longer schedule changes nothing. -/
theorem collect_append_of_some {α ε : Type} [GoFloat α] (w : multiWeatherProvider α ε)
    (city : GoString) (extra : List Nat) :
    ∀ (sched : List Nat) (s : State α ε) (r : α × Option ε),
      (collect w city sched s).2 = some r →
        collect w city (sched ++ extra) s = collect w city sched s := by
  intro sched
  induction sched with
  | nil =>
    intro s r hr
    by_cases hi : s.i < w.length
    · simp [collect, hi] at hr
    · cases extra <;> simp [collect, hi]
  | cons c rest ih =>
    intro s r hr
    rw [List.cons_append]
    unfold collect at hr ⊢
    by_cases hi : s.i < w.length
    · simp only [hi, if_true] at hr ⊢
      rcases hp : pick (enabled w city s) c with _ | a
      · simp [hp] at hr
      · simp only [hp] at hr ⊢
        rcases hs : step w city s a with _ | s' | ⟨k, err⟩
        · simp [hs] at hr
        · simp only [hs] at hr ⊢
          rw [ih s' r hr]
        · rfl
    · simp only [hi, if_false]

/-- The goroutines can send in any order before the loop receives anything. -/
theorem exec_sends {α ε : Type} [GoFloat α] (w : multiWeatherProvider α ε) (city : GoString) :
    ∀ (R sent : List Nat) (s : State α ε), Inv w city sent s → s.i = 0 →
      (sent ++ R).Perm (List.range w.length) →
        ∃ s', Inv w city (sent ++ R) s' ∧ s'.i = 0 ∧
          ∀ tr r, Exec w city s' tr r → Exec w city s (R.map Action.send ++ tr) r := by
  intro R
  induction R with
  | nil =>
    intro sent s h hi _
    exact ⟨s, by simpa using h, hi, fun tr r hex => by simpa using hex⟩
  | cons k R ih =>
    intro sent s h hi hperm
    have hnd : (sent ++ k :: R).Nodup := hperm.nodup_iff.mpr (List.nodup_range _)
    have hkr : k ∈ List.range w.length :=
      hperm.subset (List.mem_append_right _ (List.mem_cons_self _ _))
    have hks : k ∉ sent := fun hmem =>
      (List.nodup_append.mp hnd).2.2 hmem (List.mem_cons_self _ _)
    have hkp : k ∈ s.pending := by
      rcases List.mem_append.mp (h.perm.symm.subset hkr) with h1 | h1
      · exact absurd h1 hks
      · exact h1
    obtain ⟨s₁, hstep, hinv₁, hi₁, _⟩ := step_send h hkp
    have hn : s.i < w.length := by
      rw [hi]
      exact Nat.lt_of_le_of_lt (Nat.zero_le _) (List.mem_range.mp hkr)
    obtain ⟨s', hinv', hi', hex⟩ := ih (sent ++ [k]) s₁ hinv₁ (hi₁.trans hi)
      (by simpa using hperm)
    refine ⟨s', by simpa using hinv', hi', fun tr r h' => ?_⟩
    exact Exec.next s s₁ (.send k) _ r hn hstep (hex tr r h')

/-- When every goroutine has sent a temperature, the loop can receive them all, and the
call returns their sum, in the order they were sent, divided by `float64(len(w))`. -/
theorem exec_recvs {α ε : Type} [GoFloat α] (w : multiWeatherProvider α ε) (city : GoString)
    (sent : List Nat) (hperm : sent.Perm (List.range w.length))
    (hall : ∀ p ∈ w, (p.temperature city).2 = none) :
    ∀ (m : Nat) (s : State α ε), Inv w city sent s → w.length - s.i = m →
      Exec w city s (List.replicate m .recvTemp)
        (some (GoFloat.div (fsum (sent.filterMap (tempOf w city)))
          (GoFloat.ofConst (w.length : Int) 1), none)) := by
  have hE : sent.filterMap (errOf w city) = [] := by
    apply List.eq_nil_iff_forall_not_mem.mpr
    intro e he
    obtain ⟨k, _, hk⟩ := List.mem_filterMap.mp he
    rw [errOf_eq_none_of_forall hall k] at hk
    simp at hk
  have hlen : sent.length = w.length := by simpa using hperm.length_eq
  intro m
  induction m with
  | zero =>
    intro s h hm
    have hadd := length_filterMap_add w city sent h.lt_of_mem_sent
    rw [hE, List.length_nil, Nat.add_zero] at hadd
    have hi : ¬ s.i < w.length := by omega
    have hsum := h.sum
    rw [List.take_of_length_le (by omega)] at hsum
    rw [← hsum]
    exact Exec.done s hi
  | succ m ih =>
    intro s h hm
    have hadd := length_filterMap_add w city sent h.lt_of_mem_sent
    rw [hE, List.length_nil, Nat.add_zero] at hadd
    have hi : s.i < w.length := by omega
    have hlt : s.i < (sent.filterMap (tempOf w city)).length := by omega
    have hd := List.drop_eq_getElem_cons hlt
    rw [← h.temps] at hd
    have hstep : step w city s .recvTemp
        = .next { s with temps := (sent.filterMap (tempOf w city)).drop (s.i + 1),
                         sum := GoFloat.add s.sum (sent.filterMap (tempOf w city))[s.i],
                         i := s.i + 1 } := by
      simp only [step, hd]
    obtain ⟨hinv', hi', _⟩ := step_recvTemp h hstep
    exact Exec.next s _ .recvTemp _ _ hi hstep (ih _ hinv' (by rw [hi']; omega))

/-- When every provider succeeds, the temperatures can arrive in every order: for each
order `S` of the providers there is a schedule under which the call returns the sum of the
temperatures in the order `S`, divided by `float64(len(w))`. -/
theorem exists_sched_of_order {α ε : Type} [GoFloat α] (w : multiWeatherProvider α ε)
    (city : GoString) (hall : ∀ p ∈ w, (p.temperature city).2 = none) (S : List Nat)
    (hS : S.Perm (List.range w.length)) :
    ∃ sched, 2 * w.length ≤ sched.length ∧
      multiWeatherProvider.temperature w city sched
        = some (GoFloat.div (fsum (S.filterMap (tempOf w city)))
            (GoFloat.ofConst (w.length : Int) 1), none) := by
  obtain ⟨s', hinv', hi', hex⟩ :=
    exec_sends w city S [] (initState w) (inv_initState w city) rfl (by simpa using hS)
  simp only [List.nil_append] at hinv'
  have hr := exec_recvs w city S hS hall w.length s' hinv' (by rw [hi']; rfl)
  obtain ⟨sched, hsched⟩ := exists_sched_of_exec w city _ _ _ (hex _ _ hr)
  refine ⟨sched ++ List.replicate (2 * w.length) 0, by simp, ?_⟩
  unfold multiWeatherProvider.temperature
  rw [collect_append_of_some w city _ sched (initState w) _ (by rw [hsched]), hsched]

/-- The error of any failing provider can be the first to arrive: there is a schedule
under which the call returns it. -/
theorem exists_sched_of_failure {α ε : Type} [GoFloat α] (w : multiWeatherProvider α ε)
    (city : GoString) (p : weatherProvider α ε) (hp : p ∈ w) (e : ε)
    (he : (p.temperature city).2 = some e) :
    ∃ sched, 2 * w.length ≤ sched.length ∧
      multiWeatherProvider.temperature w city sched = some (GoFloat.ofConst 0 1, some e) := by
  obtain ⟨k, hk, hke⟩ := exists_errOf_of_mem hp he
  have hkp : k ∈ (initState w).pending := List.mem_range.mpr hk
  obtain ⟨s₁, hstep, hinv₁, hi₁, _⟩ := step_send (inv_initState w city) hkp
  have herrs : s₁.errs = [e] := by
    rw [hinv₁.errs]; simp [hke]
  have hn : s₁.i < w.length := by
    rw [hi₁]; exact Nat.lt_of_le_of_lt (Nat.zero_le _) hk
  have hret : step w city s₁ .recvErr = .ret (GoFloat.ofConst 0 1) (some e) := by
    simp only [step, herrs]
  have hex : Exec w city (initState w) [.send k, .recvErr]
      (some (GoFloat.ofConst 0 1, some e)) :=
    Exec.next _ s₁ (.send k) _ _ (Nat.lt_of_le_of_lt (Nat.zero_le _) hk) hstep
      (Exec.ret s₁ .recvErr _ _ hn hret)
  obtain ⟨sched, hsched⟩ := exists_sched_of_exec w city _ _ _ hex
  refine ⟨sched ++ List.replicate (2 * w.length) 0, by simp, ?_⟩
  unfold multiWeatherProvider.temperature
  rw [collect_append_of_some w city _ sched (initState w) _ (by rw [hsched]), hsched]

/-- A permutation of the images of a list is the list of the images of a permutation. -/
theorem exists_perm_map {β γ : Type} (f : β → γ) {a b : List γ} (h : a.Perm b) :
    ∀ L : List β, L.map f = a → ∃ L' : List β, L'.Perm L ∧ L'.map f = b := by
  induction h with
  | nil =>
    intro L hL
    exact ⟨L, List.Perm.refl _, hL⟩
  | cons x _ ih =>
    intro L hL
    obtain ⟨y, L₁, rfl, hy, hL₁⟩ := List.map_eq_cons_iff.mp hL
    obtain ⟨L₁', hp, hm⟩ := ih L₁ hL₁
    exact ⟨y :: L₁', hp.cons y, by simp [hy, hm]⟩
  | swap x y l =>
    intro L hL
    obtain ⟨u, L₁, rfl, hu, hL₁⟩ := List.map_eq_cons_iff.mp hL
    obtain ⟨v, L₂, rfl, hv, hL₂⟩ := List.map_eq_cons_iff.mp hL₁
    exact ⟨v :: u :: L₂, List.Perm.swap _ _ _, by simp [hu, hv, hL₂]⟩
  | trans _ _ ih₁ ih₂ =>
    intro L hL
    obtain ⟨L₁, hp₁, hm₁⟩ := ih₁ L hL
    obtain ⟨L₂, hp₂, hm₂⟩ := ih₂ L₁ hm₁
    exact ⟨L₂, hp₂.trans hp₁, hm₂⟩

/-- When every provider succeeds, every order of the temperatures is the order of the
temperatures of the providers taken in some order. -/
theorem exists_order_of_perm {α ε : Type} [GoFloat α] (w : multiWeatherProvider α ε)
    (city : GoString) (hall : ∀ p ∈ w, (p.temperature city).2 = none) (l : List α)
    (hl : l.Perm (w.map (fun p => (p.temperature city).1))) :
    ∃ S : List Nat, S.Perm (List.range w.length) ∧ S.filterMap (tempOf w city) = l := by
  have hg : ∀ k, k < w.length →
      tempOf w city k = some ((tempOf w city k).getD (GoFloat.ofConst 0 1)) := by
    intro k hk
    rcases tempOf_errOf_of_lt w city hk with ⟨h1, _⟩ | ⟨_, h2⟩
    · obtain ⟨t, ht⟩ := Option.isSome_iff_exists.mp h1
      rw [ht]; rfl
    · rw [errOf_eq_none_of_forall hall k] at h2
      simp at h2
  have hmap : ∀ S : List Nat, (∀ k ∈ S, k < w.length) →
      S.filterMap (tempOf w city)
        = S.map (fun k => (tempOf w city k).getD (GoFloat.ofConst 0 1)) := by
    intro S hS
    rw [← List.filterMap_eq_map]
    exact List.filterMap_congr (fun k hk => hg k (hS k hk))
  have hrange : (List.range w.length).map
      (fun k => (tempOf w city k).getD (GoFloat.ofConst 0 1))
      = w.map (fun p => (p.temperature city).1) := by
    rw [← hmap _ (fun k hk => List.mem_range.mp hk), filterMap_tempOf_range city w hall]
  obtain ⟨S, hS, hSl⟩ := exists_perm_map _ hl.symm (List.range w.length) hrange
  refine ⟨S, hS, ?_⟩
  rw [hmap S (fun k hk => List.mem_range.mp (hS.subset hk)), hSl]

theorem forall_perm_of_permutations {α : Type} {P : List α → Prop} (ts : List α)
    (h : ∀ l ∈ ts.permutations, P l) : ∀ l, l.Perm ts → P l :=
  fun l hl => h l (List.mem_permutations.mpr hl)

theorem fsum_rat (l : List ℚ) : fsum l = l.sum := by
  have h : ∀ (l : List ℚ) (a : ℚ), l.foldl GoFloat.add a = a + l.sum := by
    intro l
    induction l with
    | nil => intro a; simp
    | cons x xs ih =>
      intro a
      rw [List.foldl_cons, ih, List.sum_cons]
      show a + x + xs.sum = a + (x + xs.sum)
      ring
  unfold fsum
  rw [h]
  show ((0 : Int) : ℚ) / ((1 : Nat) : ℚ) + l.sum = l.sum
  simp

end Lemmas

/-! ## The aggregator: results -/

/-- In exact arithmetic, when every provider succeeds, the call returns the mean of the
temperatures of the providers, whatever the schedule. -/
theorem temperature_mean_exact {ε : Type} (w : multiWeatherProvider ℚ ε) (city : GoString)
    (sched : List Nat) (hall : ∀ p ∈ w, (p.temperature city).2 = none)
    (hlen : 2 * w.length ≤ sched.length) :
    multiWeatherProvider.temperature w city sched
      = some ((w.map (fun p => (p.temperature city).1)).sum / (w.length : ℚ), none) := by
  obtain ⟨hperm, hr⟩ := temperature_all_ok w city sched hall hlen
  rw [hr, fsum_rat, hperm.sum_eq]
  show some (_ / (((w.length : Int) : ℚ) / ((1 : Nat) : ℚ)), none) = _
  simp

/-- The providers returning `290.0`, `300.0` and `310.0` give `300.0` in `float64`
arithmetic under every schedule, so in each of the six arrival orders. -/
theorem temperature_threeProviders (city : GoString) (sched : List Nat)
    (hlen : 6 ≤ sched.length) :
    multiWeatherProvider.temperature threeProviders city sched
      = some (F64.ofConst 300 1, none) := by
  have hall : ∀ p ∈ threeProviders, (p.temperature city).2 = none := by
    intro p hp
    simp only [threeProviders, List.mem_cons, List.mem_singleton, List.not_mem_nil,
      or_false] at hp
    rcases hp with rfl | rfl | rfl <;> rfl
  obtain ⟨hperm, hr⟩ := temperature_all_ok threeProviders city sched hall hlen
  have hsum : ∀ l, l.Perm [F64.ofConst 290 1, F64.ofConst 300 1, F64.ofConst 310 1] →
      GoFloat.div (fsum l) (GoFloat.ofConst 3 1) = F64.ofConst 300 1 :=
    forall_perm_of_permutations _ (by decide!)
  rw [hr]
  exact congrArg (fun v => some (v, (none : Option String))) (hsum _ hperm)

/-- C1 (as amended): when every provider succeeds, a call whose schedule has two steps
for each provider returns no error and `s / float64(len(w))`, where `s` is the sum, from
`0.0` on, of the temperatures in the order in which their signals were sent on `temps`,
which is a permutation of the temperatures of the providers; when the sum of these
temperatures does not depend on their order, this is the sum in the order of the
providers divided by `float64(len(w))`. -/
theorem temperature_mean_of_arrivals {α ε : Type} [GoFloat α] (w : multiWeatherProvider α ε)
    (city : GoString) (sched : List Nat)
    (hall : ∀ p ∈ w, (p.temperature city).2 = none)
    (hlen : 2 * w.length ≤ sched.length) :
    (arrivals w city (multiWeatherProvider.trace w city sched)).Perm
        (w.map (fun p => (p.temperature city).1)) ∧
      multiWeatherProvider.temperature w city sched
        = some (GoFloat.div (fsum (arrivals w city (multiWeatherProvider.trace w city sched)))
            (GoFloat.ofConst (w.length : Int) 1), none) ∧
      ((∀ l, l.Perm (w.map (fun p => (p.temperature city).1)) →
          fsum l = fsum (w.map (fun p => (p.temperature city).1))) →
        multiWeatherProvider.temperature w city sched
          = some (GoFloat.div (fsum (w.map (fun p => (p.temperature city).1)))
              (GoFloat.ofConst (w.length : Int) 1), none)) := by
  obtain ⟨hperm, hr⟩ := temperature_all_ok w city sched hall hlen
  refine ⟨hperm, hr, fun hsum => ?_⟩
  rw [hr, hsum _ hperm]

/-- C1, witness: the providers returning `290.0`, `300.0` and `310.0`, their signals
arriving in the order `300.0`, `310.0`, `290.0`, give `300.0`. -/
theorem temperature_mean_of_arrivals_witness :
    arrivals threeProviders (str "tokyo")
        (multiWeatherProvider.trace threeProviders (str "tokyo") [1, 1, 0, 0, 0, 0])
      = [F64.ofConst 300 1, F64.ofConst 310 1, F64.ofConst 290 1] ∧
    multiWeatherProvider.temperature threeProviders (str "tokyo") [1, 1, 0, 0, 0, 0]
      = some (F64.ofConst 300 1, none) :=
  ⟨by decide!,
   ((temperature_mean_of_arrivals threeProviders (str "tokyo") [1, 1, 0, 0, 0, 0]
      (by decide) (by decide)).2.2
      (forall_perm_of_permutations _ (by decide!))).trans (by decide!)⟩

/-- C1, counterexample: three providers succeed with `300.00000000000006`,
`300.00000000000006` and `300.0`; when the signals arrive in this order the call returns
`300.00000000000006`, and when the signal of the third provider arrives second it returns
`300.0`: the value depends on the arrival order. -/
theorem temperature_mean_order_dependent :
    (∀ p ∈ roundingProviders, (p.temperature (str "tokyo")).2 = none) ∧
    multiWeatherProvider.trace roundingProviders (str "tokyo") [0, 0, 0, 0, 0, 0]
      = [.send 0, .send 1, .send 2, .recvTemp, .recvTemp, .recvTemp] ∧
    multiWeatherProvider.temperature roundingProviders (str "tokyo") [0, 0, 0, 0, 0, 0]
      = some (above300, none) ∧
    multiWeatherProvider.trace roundingProviders (str "tokyo") [0, 1, 0, 0, 0, 0]
      = [.send 0, .send 2, .send 1, .recvTemp, .recvTemp, .recvTemp] ∧
    multiWeatherProvider.temperature roundingProviders (str "tokyo") [0, 1, 0, 0, 0, 0]
      = some (F64.ofConst 300 1, none) ∧
    above300 ≠ F64.ofConst 300 1 := by
  refine ⟨by decide, by decide!, by decide!, by decide!, by decide!, by decide!⟩

/-- C2: when some provider of the set fails, no call returns a temperature with a nil
error, whatever the schedule, and every call whose schedule has two steps for each
provider returns `0` and an error, which is the error of a provider of the set. -/
theorem temperature_never_value_of_failure {α ε : Type} [GoFloat α]
    (w : multiWeatherProvider α ε) (city : GoString) (p : weatherProvider α ε) (hp : p ∈ w)
    (hfail : (p.temperature city).2 ≠ none) :
    (∀ sched v, multiWeatherProvider.temperature w city sched ≠ some (v, none)) ∧
      ∀ sched, 2 * w.length ≤ sched.length →
        ∃ e, multiWeatherProvider.temperature w city sched = some (GoFloat.ofConst 0 1, some e) ∧
          ∃ q ∈ w, (q.temperature city).2 = some e := by
  refine ⟨fun sched v h => hfail (all_ok_of_value h p hp), fun sched hlen => ?_⟩
  obtain ⟨e, _, hq, hr⟩ := temperature_some_fail w city sched p hp hfail hlen
  exact ⟨e, hr, hq⟩

/-- C2, witness: with a provider returning `295.0` and a provider failing with "timeout",
the call in which the temperature is sent first returns the error "timeout", and no call
returns a temperature. -/
theorem temperature_never_value_of_failure_witness :
    multiWeatherProvider.temperature timeoutProviders (str "tokyo") [0, 0, 0, 0]
        = some (GoFloat.ofConst 0 1, some "timeout") ∧
      ∀ sched v, multiWeatherProvider.temperature timeoutProviders (str "tokyo") sched
        ≠ some (v, none) :=
  ⟨by decide,
   (temperature_never_value_of_failure timeoutProviders (str "tokyo") (failProvider "timeout")
      (by simp [timeoutProviders]) (by simp [failProvider])).1⟩

/-- C3: when exactly one provider fails, with the error `e`, and all the others succeed,
every call whose schedule has two steps for each provider returns `0` and `e` itself. -/
theorem temperature_single_failure {α ε : Type} [GoFloat α]
    (before after : multiWeatherProvider α ε) (p : weatherProvider α ε) (e : ε)
    (city : GoString) (sched : List Nat)
    (he : (p.temperature city).2 = some e)
    (hbefore : ∀ q ∈ before, (q.temperature city).2 = none)
    (hafter : ∀ q ∈ after, (q.temperature city).2 = none)
    (hlen : 2 * (before ++ p :: after).length ≤ sched.length) :
    multiWeatherProvider.temperature (before ++ p :: after) city sched
      = some (GoFloat.ofConst 0 1, some e) := by
  have hp : p ∈ before ++ p :: after := by simp
  have hfail : (p.temperature city).2 ≠ none := by rw [he]; simp
  obtain ⟨e', _, ⟨q, hq, hqe⟩, hr⟩ :=
    temperature_some_fail (before ++ p :: after) city sched p hp hfail hlen
  rw [hr]
  rcases List.mem_append.mp hq with h | h
  · rw [hbefore q h] at hqe; simp at hqe
  · rcases List.mem_cons.mp h with h | h
    · subst h
      rw [he] at hqe
      rw [Option.some.inj hqe]
    · rw [hafter q h] at hqe; simp at hqe

/-- C3, witness: two providers, one returning `295.0` and one failing with "timeout", the
temperature arriving and being received first: the call returns `0` and "timeout". -/
theorem temperature_single_failure_witness :
    multiWeatherProvider.temperature
        ([okProvider (F64.ofConst 295 1)] ++ failProvider "timeout" :: [])
        (str "tokyo") [0, 1, 0, 0]
      = some (GoFloat.ofConst 0 1, some "timeout") :=
  temperature_single_failure [okProvider (F64.ofConst 295 1)] [] (failProvider "timeout")
    "timeout" (str "tokyo") [0, 1, 0, 0] rfl (by decide) (by decide) (by decide)

/-- C4 (as amended): `multiWeatherProvider` is a slice type without a constructor, the
empty slice is a value of it, and on it `temperature` spawns no goroutine, receives no
signal, and returns `0.0 / float64(0)` with a nil error, under every schedule; the
provider set that `main` builds has three providers. -/
theorem temperature_nil {α ε : Type} [GoFloat α] (city : GoString) (sched : List Nat)
    (fused : Bool) (owm wu fio : GoString → Fetched α ε) :
    multiWeatherProvider.temperature ([] : multiWeatherProvider α ε) city sched
        = some (GoFloat.div (GoFloat.ofConst 0 1) (GoFloat.ofConst 0 1), none) ∧
      multiWeatherProvider.trace ([] : multiWeatherProvider α ε) city sched = [] ∧
      (mw fused owm wu fio).length = 3 := by
  refine ⟨?_, ?_, rfl⟩ <;> cases sched <;> rfl

/-- C4, counterexample: the empty provider set can be built and called; in `float64`
arithmetic the call returns the result of the division by zero `0.0 / 0.0`, a NaN, with a
nil error. -/
theorem temperature_empty_nan :
    multiWeatherProvider.temperature ([] : multiWeatherProvider F64 String) (str "tokyo") []
      = some (F64.nan, none) := by
  decide

/-- C5: a call that returns an error returns `0` and the first error that was sent on
`errs`; and when some provider fails, every call whose schedule has two steps for each
provider returns the first error that was sent on `errs`. -/
theorem temperature_first_failure {α ε : Type} [GoFloat α] (w : multiWeatherProvider α ε)
    (city : GoString) (p : weatherProvider α ε) (hp : p ∈ w)
    (hfail : (p.temperature city).2 ≠ none) :
    (∀ sched v e, multiWeatherProvider.temperature w city sched = some (v, some e) →
        v = GoFloat.ofConst 0 1 ∧
        (failures w city (multiWeatherProvider.trace w city sched)).head? = some e) ∧
      ∀ sched, 2 * w.length ≤ sched.length →
        ∃ e, (failures w city (multiWeatherProvider.trace w city sched)).head? = some e ∧
          multiWeatherProvider.temperature w city sched
            = some (GoFloat.ofConst 0 1, some e) := by
  refine ⟨fun sched v e h => ?_, fun sched hlen => ?_⟩
  · obtain ⟨hv, hhead, _⟩ := temperature_error h
    exact ⟨hv, hhead⟩
  · obtain ⟨e, hhead, _, hr⟩ := temperature_some_fail w city sched p hp hfail hlen
    exact ⟨e, hhead, hr⟩

/-- C5, witness: two providers fail, with "timeout" and with "refused"; when the error
of the second is sent first, the errors sent are "refused" and then "timeout", and the
call returns "refused". -/
theorem temperature_first_failure_witness :
    multiWeatherProvider.trace failingProviders (str "tokyo") [1, 0, 0, 0]
      = [.send 1, .send 0, .recvErr] ∧
    multiWeatherProvider.temperature failingProviders (str "tokyo") [1, 0, 0, 0]
      = some (GoFloat.ofConst 0 1, some "refused") ∧
    (failures failingProviders (str "tokyo")
        (multiWeatherProvider.trace failingProviders (str "tokyo") [1, 0, 0, 0])).head?
      = some "refused" :=
  ⟨by decide, by decide,
   ((temperature_first_failure failingProviders (str "tokyo") (failProvider "timeout")
      (by simp [failingProviders]) (by simp [failProvider])).1 [1, 0, 0, 0]
      (GoFloat.ofConst 0 1) "refused" (by decide)).2⟩

/-- C6 (as amended): with deterministic providers, all the calls for a city whose
schedule has two steps for each provider return one and the same pair if and only if the
providers that fail all fail with the same error and, when no provider fails, the value
`s / float64(len(w))` is the same for every order of the temperatures, `s` being their sum
from `0.0` on in that order. -/
theorem temperature_idempotent_iff {α ε : Type} [GoFloat α] (w : multiWeatherProvider α ε)
    (city : GoString) :
    (∃ r, ∀ sched, 2 * w.length ≤ sched.length →
        multiWeatherProvider.temperature w city sched = some r) ↔
      ((∀ p ∈ w, ∀ q ∈ w, (p.temperature city).2 ≠ none → (q.temperature city).2 ≠ none →
          (p.temperature city).2 = (q.temperature city).2) ∧
        ((∀ p ∈ w, (p.temperature city).2 = none) →
          ∀ l, l.Perm (w.map (fun p => (p.temperature city).1)) →
            GoFloat.div (fsum l) (GoFloat.ofConst (w.length : Int) 1)
              = GoFloat.div (fsum (w.map (fun p => (p.temperature city).1)))
                  (GoFloat.ofConst (w.length : Int) 1))) := by
  constructor
  · rintro ⟨r, hr⟩
    refine ⟨fun p hp q hq hpf hqf => ?_, fun hall l hl => ?_⟩
    · obtain ⟨e₁, he₁⟩ := Option.ne_none_iff_exists'.mp hpf
      obtain ⟨e₂, he₂⟩ := Option.ne_none_iff_exists'.mp hqf
      obtain ⟨s₁, hlen₁, h₁⟩ := exists_sched_of_failure w city p hp e₁ he₁
      obtain ⟨s₂, hlen₂, h₂⟩ := exists_sched_of_failure w city q hq e₂ he₂
      rw [hr s₁ hlen₁] at h₁
      rw [hr s₂ hlen₂] at h₂
      have h := h₁.symm.trans h₂
      simp only [Option.some.injEq, Prod.mk.injEq, true_and] at h
      rw [he₁, he₂, h]
    · obtain ⟨S, hS, hSl⟩ := exists_order_of_perm w city hall l hl
      obtain ⟨s₁, hlen₁, h₁⟩ := exists_sched_of_order w city hall S hS
      obtain ⟨s₂, hlen₂, h₂⟩ :=
        exists_sched_of_order w city hall (List.range w.length) (List.Perm.refl _)
      rw [hr s₁ hlen₁, hSl] at h₁
      rw [hr s₂ hlen₂, filterMap_tempOf_range city w hall] at h₂
      have h := h₁.symm.trans h₂
      simp only [Option.some.injEq, Prod.mk.injEq, and_true] at h
      exact h
  · rintro ⟨herr, hquot⟩
    by_cases hall : ∀ p ∈ w, (p.temperature city).2 = none
    · refine ⟨(GoFloat.div (fsum (w.map (fun p => (p.temperature city).1)))
        (GoFloat.ofConst (w.length : Int) 1), none), fun sched hlen => ?_⟩
      obtain ⟨hp, hr⟩ := temperature_all_ok w city sched hall hlen
      rw [hr, hquot hall _ hp]
    · simp only [not_forall] at hall
      obtain ⟨p, hp, hfail⟩ := hall
      obtain ⟨e, he⟩ := Option.ne_none_iff_exists'.mp hfail
      refine ⟨(GoFloat.ofConst 0 1, some e), fun sched hlen => ?_⟩
      obtain ⟨e', _, ⟨q, hq, hqe⟩, hr⟩ := temperature_some_fail w city sched p hp hfail hlen
      have h := herr p hp q hq hfail (by rw [hqe]; simp)
      rw [he, hqe] at h
      rw [hr, Option.some.inj h]

/-- C6, witness: three providers return `300.0`, `300.00000000000006` and
`300.0000000000001`; the sum of these temperatures depends on their order, the sum
divided by `3.0` does not, and every call returns `300.00000000000006`. -/
theorem temperature_idempotent_iff_witness :
    fsum [F64.ofConst 300 1, above300, twoAbove300]
        ≠ fsum [above300, twoAbove300, F64.ofConst 300 1] ∧
      ∃ r, ∀ sched, 2 * tieProviders.length ≤ sched.length →
        multiWeatherProvider.temperature tieProviders (str "tokyo") sched = some r :=
  ⟨by decide!,
   (temperature_idempotent_iff tieProviders (str "tokyo")).mpr
     ⟨by decide, fun _ => forall_perm_of_permutations _ (by decide!)⟩⟩

/-- C6, counterexample: the same two deterministic providers, failing with "timeout" and
with "refused", the same city: the call in which the first error is sent first returns
"timeout", the call in which the second error is sent first returns "refused".  And the
same three deterministic providers succeeding with `9007199254740992.0`, `1.0` and `1.0`:
the call whose signals arrive in this order returns `3002399751580330.5`, the call in
which the large temperature arrives last returns `3002399751580331.5`. -/
theorem temperature_not_idempotent :
    multiWeatherProvider.temperature failingProviders (str "tokyo") [0, 0, 0, 0]
        = some (GoFloat.ofConst 0 1, some "timeout") ∧
      multiWeatherProvider.temperature failingProviders (str "tokyo") [1, 0, 0, 0]
        = some (GoFloat.ofConst 0 1, some "refused") ∧
      multiWeatherProvider.temperature largeProviders (str "tokyo") [0, 0, 0, 0, 0, 0]
        = some (F64.ofConst 6004799503160661 2, none) ∧
      multiWeatherProvider.temperature largeProviders (str "tokyo") [1, 1, 0, 0, 0, 0]
        = some (F64.ofConst 6004799503160663 2, none) ∧
      multiWeatherProvider.temperature largeProviders (str "tokyo") [0, 0, 0, 0, 0, 0]
        ≠ multiWeatherProvider.temperature largeProviders (str "tokyo") [1, 1, 0, 0, 0, 0] := by
  refine ⟨by decide, by decide, by decide!, by decide!, by decide!⟩

/-- C8: the goroutine of a provider sends exactly one signal, a temperature on `temps` or
an error on `errs`; in a call that returns, no goroutine sends twice; a call that returns
no error has received `len(w)` temperatures and no error, every goroutine having sent a
temperature; a call that returns an error has received at most `len(w)` signals, exactly
one of them an error, and that receipt is its last action. -/
theorem signal_counts {α ε : Type} [GoFloat α] (w : multiWeatherProvider α ε)
    (city : GoString) (sched : List Nat) (r : α × Option ε)
    (h : multiWeatherProvider.temperature w city sched = some r) :
    (∀ (cap : Nat) (p : weatherProvider α ε) (s s' : State α ε),
        goroutine cap p city s = some s' →
          ((p.temperature city).2 = none ∧ s'.temps = s.temps ++ [(p.temperature city).1] ∧
              s'.errs = s.errs) ∨
            (∃ e, (p.temperature city).2 = some e ∧ s'.errs = s.errs ++ [e] ∧
              s'.temps = s.temps)) ∧
      (sends (multiWeatherProvider.trace w city sched)).Nodup ∧
      (∀ k ∈ sends (multiWeatherProvider.trace w city sched), k < w.length) ∧
      (arrivals w city (multiWeatherProvider.trace w city sched)).length
          + (failures w city (multiWeatherProvider.trace w city sched)).length
        = (sends (multiWeatherProvider.trace w city sched)).length ∧
      (r.2 = none →
        (multiWeatherProvider.trace w city sched).count .recvTemp = w.length ∧
        (multiWeatherProvider.trace w city sched).count .recvErr = 0 ∧
        (sends (multiWeatherProvider.trace w city sched)).Perm (List.range w.length) ∧
        (arrivals w city (multiWeatherProvider.trace w city sched)).length = w.length) ∧
      (r.2 ≠ none →
        (multiWeatherProvider.trace w city sched).count .recvTemp
            + (multiWeatherProvider.trace w city sched).count .recvErr ≤ w.length ∧
        (multiWeatherProvider.trace w city sched).count .recvErr = 1 ∧
        (multiWeatherProvider.trace w city sched).getLast? = some .recvErr) := by
  obtain ⟨hnd, hlt⟩ := sends_nodup h
  obtain ⟨hc1, hc2⟩ := collect_counts w city sched (initState w) r h
  refine ⟨?_, hnd, hlt, length_filterMap_add w city _ hlt, fun hn => ?_, fun hn => ?_⟩
  · intro cap p s s' hg
    unfold goroutine at hg
    rcases hp : (p.temperature city).2 with _ | e
    · left
      rw [hp] at hg
      simp only [] at hg
      split at hg
      · cases hg; exact ⟨rfl, rfl, rfl⟩
      · simp at hg
    · right
      rw [hp] at hg
      simp only [] at hg
      split at hg
      · cases hg; exact ⟨e, rfl, rfl, rfl⟩
      · simp at hg
  · obtain ⟨h1, h2⟩ := hc1 hn
    have h3 := h2 (Nat.zero_le _)
    obtain ⟨v, err⟩ := r
    simp only at hn
    subst hn
    obtain ⟨hperm, hlen, _, _⟩ := temperature_value h
    refine ⟨?_, h1, hperm, hlen⟩
    simpa [initState] using h3
  · obtain ⟨e, he⟩ := Option.ne_none_iff_exists'.mp hn
    obtain ⟨h1, h2, h3⟩ := hc2 e he
    refine ⟨?_, h1, h2⟩
    have : (multiWeatherProvider.trace w city sched).count .recvTemp < w.length := by
      simpa [initState] using h3
    have h1' : (multiWeatherProvider.trace w city sched).count .recvErr = 1 := h1
    omega

/-- C8, witness: a provider returning `295.0` and a provider failing with "timeout", the
temperature being sent and received first: the call receives two signals, the second and
last of them the error. -/
theorem signal_counts_witness :
    multiWeatherProvider.trace timeoutProviders (str "tokyo") [0, 1, 0, 0]
      = [.send 0, .recvTemp, .send 1, .recvErr] ∧
    ((multiWeatherProvider.trace timeoutProviders (str "tokyo") [0, 1, 0, 0]).count .recvTemp
        + (multiWeatherProvider.trace timeoutProviders (str "tokyo") [0, 1, 0, 0]).count
            .recvErr ≤ timeoutProviders.length ∧
      (multiWeatherProvider.trace timeoutProviders (str "tokyo") [0, 1, 0, 0]).count .recvErr
        = 1 ∧
      (multiWeatherProvider.trace timeoutProviders (str "tokyo") [0, 1, 0, 0]).getLast?
        = some .recvErr) :=
  ⟨by decide!,
   (signal_counts timeoutProviders (str "tokyo") [0, 1, 0, 0]
      (GoFloat.ofConst 0 1, some "timeout") (by decide!)).2.2.2.2.2 (by simp)⟩

/-! ## The request handler: results -/

theorem str_weather : str "/weather/" = [47, 119, 101, 97, 116, 104, 101, 114, 47] := by
  decide

theorem str_slash : str "/" = [47] := by decide

/-- Splitting a path that starts with "/weather/" at "/" into at most three parts: the
empty string, "weather", and all that follows the second "/". -/
theorem SplitN_weather (rest : GoString) :
    strings.SplitN (str "/weather/" ++ rest) (str "/") 3
      = some [[], [119, 101, 97, 116, 104, 101, 114], rest] := by
  have hmin : min (3 : Int).toNat ((str "/weather/" ++ rest).length + 1) - 1 = 2 := by
    have h3 : (3 : Int).toNat = 3 := rfl
    rw [h3, str_weather]
    simp only [List.length_append, List.length_cons, List.length_nil]
    omega
  unfold strings.SplitN
  rw [hmin, str_weather, str_slash]
  simp [strings.genSplit, strings.Index, List.isPrefixOf]

/-- The response to a request for which the call of `temperature` returns the error
`e`: status 500, plain text, and the message of `e` with a newline for its body. -/
theorem weatherHandler_of_error {α ε : Type} [GoFloat α] (w : multiWeatherProvider α ε)
    (errorString : ε → GoString) (encode : GoString → α → GoString)
    (path city : GoString) (sched : List Nat) (v : α) (e : ε)
    (hcity : cityOfPath path = some city)
    (h : multiWeatherProvider.temperature w city sched = some (v, some e)) :
    weatherHandler w errorString encode path sched
      = .response
          { status := 500
            header := [(str "Content-Type", str "text/plain; charset=utf-8"),
                       (str "X-Content-Type-Options", str "nosniff")]
            body := errorString e ++ str "\n" } := by
  simp only [weatherHandler, hcity, h]
  rfl

/-- C7 (as amended): the handler answers an error of the aggregator with the status 500
and a plain-text body, never with the JSON document; the body is the message of the
error followed by a newline, so that the responses to two errors are the same exactly
when the two errors have the same message. -/
theorem weatherHandler_error_response {α ε : Type} [GoFloat α] (w : multiWeatherProvider α ε)
    (errorString : ε → GoString) (encode : GoString → α → GoString)
    (path city : GoString) (sched₁ sched₂ : List Nat) (v₁ v₂ : α) (e₁ e₂ : ε)
    (hcity : cityOfPath path = some city)
    (h₁ : multiWeatherProvider.temperature w city sched₁ = some (v₁, some e₁))
    (h₂ : multiWeatherProvider.temperature w city sched₂ = some (v₂, some e₂)) :
    weatherHandler w errorString encode path sched₁
        = .response
            { status := 500
              header := [(str "Content-Type", str "text/plain; charset=utf-8"),
                         (str "X-Content-Type-Options", str "nosniff")]
              body := errorString e₁ ++ str "\n" } ∧
      (weatherHandler w errorString encode path sched₁
          = weatherHandler w errorString encode path sched₂
        ↔ errorString e₁ = errorString e₂) := by
  have r₁ := weatherHandler_of_error w errorString encode path city sched₁ v₁ e₁ hcity h₁
  have r₂ := weatherHandler_of_error w errorString encode path city sched₂ v₂ e₂ hcity h₂
  refine ⟨r₁, ?_⟩
  rw [r₁, r₂]
  constructor
  · intro heq
    have hb : errorString e₁ ++ str "\n" = errorString e₂ ++ str "\n" := by
      injection heq with heq
      injection heq
    exact List.append_cancel_right hb
  · intro heq
    rw [heq]

/-- C7, witness: the provider that fails with "timeout", asked for `/weather/tokyo`:
status 500 and the body "timeout" with a newline. -/
theorem weatherHandler_error_response_witness :
    weatherHandler timeoutProviders str (fun _ _ => []) (str "/weather/tokyo") [1, 0, 0, 0]
      = .response
          { status := 500
            header := [(str "Content-Type", str "text/plain; charset=utf-8"),
                       (str "X-Content-Type-Options", str "nosniff")]
            body := str "timeout" ++ str "\n" } :=
  (weatherHandler_error_response timeoutProviders str (fun _ _ => []) (str "/weather/tokyo")
    (str "tokyo") [1, 0, 0, 0] [1, 0, 0, 0] (GoFloat.ofConst 0 1) (GoFloat.ofConst 0 1)
    "timeout" "timeout" (by decide) (by decide) (by decide)).1

/-- C7, counterexample: two errors that the aggregator returns for the same request, one
under each of two schedules, "timeout" and "refused", get different responses: the bodies
are "timeout" and "refused", each with a newline. -/
theorem weatherHandler_distinguishes_errors :
    weatherHandler failingProviders str (fun _ _ => []) (str "/weather/tokyo") [0, 0, 0, 0]
        = .response (http.Error (str "timeout") 500) ∧
      weatherHandler failingProviders str (fun _ _ => []) (str "/weather/tokyo") [1, 0, 0, 0]
        = .response (http.Error (str "refused") 500) ∧
      weatherHandler failingProviders str (fun _ _ => []) (str "/weather/tokyo") [0, 0, 0, 0]
        ≠ weatherHandler failingProviders str (fun _ _ => []) (str "/weather/tokyo")
            [1, 0, 0, 0] := by
  refine ⟨by decide, by decide, by decide⟩

/-- C10: for every request path that starts with "/weather/", `strings.SplitN(path, "/",
3)` has exactly three elements, so that the index `[2]` is in range, and the city is the
path without "/weather/", further "/" included, and the empty string for "/weather/". -/
theorem cityOfPath_weather (path : GoString) (h : str "/weather/" <+: path) :
    (∃ a, strings.SplitN path (str "/") 3 = some a ∧ a.length = 3) ∧
      cityOfPath path = some (path.drop (str "/weather/").length) ∧
      str "/weather/" ++ path.drop (str "/weather/").length = path := by
  obtain ⟨rest, rfl⟩ := h
  refine ⟨⟨_, SplitN_weather rest, rfl⟩, ?_, ?_⟩
  · simp only [cityOfPath, SplitN_weather, List.drop_left]
    rfl
  · rw [List.drop_left]

/-- C10, witness: the city of `/weather/a/b` is `a/b`, and the city of `/weather/` is the
empty string. -/
theorem cityOfPath_weather_witness :
    cityOfPath (str "/weather/a/b") = some (str "a/b") ∧ cityOfPath (str "/weather/") = some [] :=
  ⟨(cityOfPath_weather (str "/weather/a/b") ⟨str "a/b", by decide⟩).2.1.trans (by decide),
   by decide⟩

/-! ## float64 arithmetic: rounding errors -/

section Rounding

open F64

theorem bitLenAux_spec : ∀ (fuel x : Nat), x ≤ fuel → 0 < x →
    ∃ r, bitLenAux fuel x = r + 1 ∧ 2 ^ r ≤ x ∧ x < 2 ^ (r + 1) := by
  intro fuel
  induction fuel with
  | zero => intro x hx hpos; omega
  | succ fuel ih =>
    intro x hx hpos
    have hne : x ≠ 0 := by omega
    simp only [bitLenAux, hne, if_false]
    by_cases h2 : 0 < x / 2
    · obtain ⟨r, hr, hlo, hhi⟩ := ih (x / 2) (by omega) h2
      refine ⟨r + 1, by rw [hr], ?_, ?_⟩
      · rw [pow_succ]; omega
      · rw [pow_succ]; omega
    · have hx1 : x = 1 := by omega
      subst hx1
      refine ⟨0, ?_, by simp, by simp⟩
      cases fuel <;> simp [bitLenAux]

theorem bitLen_spec (a : Nat) (ha : 0 < a) :
    ∃ r, bitLen a = r + 1 ∧ 2 ^ r ≤ a ∧ a < 2 ^ (r + 1) :=
  bitLenAux_spec a a (Nat.le_refl a) ha

theorem two_zpow_pos (d : Int) : (0 : ℚ) < 2 ^ d := zpow_pos (by norm_num) d

/-- The quotient of the two scaled integers is the number scaled by `2^(e - ex)`. -/
theorem scaled_div (a b : Nat) (e ex : Int) :
    ((a * 2 ^ (e - ex).toNat : Nat) : ℚ) / ((b * 2 ^ (ex - e).toNat : Nat) : ℚ)
      = (a : ℚ) / (b : ℚ) * 2 ^ (e - ex) := by
  rcases le_total ex e with h | h
  · have h1 : (ex - e).toNat = 0 := Int.toNat_eq_zero.mpr (by omega)
    have h2 : ((e - ex).toNat : Int) = e - ex := Int.toNat_of_nonneg (by omega)
    rw [h1, ← h2, zpow_natCast]
    push_cast
    rw [Int.toNat_of_nonneg (by omega)] 
    field_simp
  · have h1 : (e - ex).toNat = 0 := Int.toNat_eq_zero.mpr (by omega)
    have h2 : ((ex - e).toNat : Int) = ex - e := Int.toNat_of_nonneg (by omega)
    have h3 : e - ex = -((ex - e).toNat : Int) := by omega
    rw [h1, h3, zpow_neg, zpow_natCast]
    push_cast
    field_simp

theorem nearestEven_spec (num den : Nat) (hden : 0 < den) :
    |((nearestEven num den : Nat) : ℚ) - (num : ℚ) / (den : ℚ)| ≤ 1 / 2 := by
  have hd : (0 : ℚ) < den := by exact_mod_cast hden
  have hsplit : (num : ℚ) = den * ((num / den : Nat) : ℚ) + ((num % den : Nat) : ℚ) := by
    exact_mod_cast (Nat.div_add_mod num den).symm
  have hmod : ((num % den : Nat) : ℚ) < den := by exact_mod_cast Nat.mod_lt num hden
  have hmod0 : (0 : ℚ) ≤ ((num % den : Nat) : ℚ) := Nat.cast_nonneg _
  have hq : (num : ℚ) / den = ((num / den : Nat) : ℚ) + ((num % den : Nat) : ℚ) / den := by
    rw [hsplit]; field_simp; ring
  rw [hq]
  unfold nearestEven
  split_ifs with hc
  · have h2 : (den : ℚ) ≤ 2 * ((num % den : Nat) : ℚ) := by
      rcases hc with hc | ⟨hc, _⟩
      · exact_mod_cast hc.le
      · exact_mod_cast hc.symm.le
    have h3 : (1 : ℚ) / 2 ≤ ((num % den : Nat) : ℚ) / den := by
      rw [le_div_iff₀ hd]; linarith
    have h4 : ((num % den : Nat) : ℚ) / den ≤ 1 := by
      rw [div_le_one hd]; exact hmod.le
    rw [abs_le]
    push_cast
    constructor <;> linarith
  · have h2 : 2 * ((num % den : Nat) : ℚ) ≤ (den : ℚ) := by
      have : ¬ den < 2 * (num % den) := fun h => hc (Or.inl h)
      exact_mod_cast Nat.le_of_not_lt this
    have h3 : ((num % den : Nat) : ℚ) / den ≤ 1 / 2 := by
      rw [div_le_iff₀ hd]; linarith
    have h4 : (0 : ℚ) ≤ ((num % den : Nat) : ℚ) / den := div_nonneg hmod0 hd.le
    rw [abs_le]
    constructor <;> linarith

theorem lastPlace_spec (a b : Nat) (e : Int) (ha : 0 < a) (hb : 0 < b) :
    -1074 ≤ lastPlace a b e ∧
      (lastPlace a b e = -1074 ∨
        (2 : ℚ) ^ (lastPlace a b e + 52) ≤ (a : ℚ) / (b : ℚ) * 2 ^ e) := by
  obtain ⟨ra, hra, halo, _⟩ := bitLen_spec a ha
  obtain ⟨rb, hrb, _, hbhi⟩ := bitLen_spec b hb
  have hbq : (0 : ℚ) < b := by exact_mod_cast hb
  have h2e : (0 : ℚ) < 2 ^ e := two_zpow_pos e
  -- the quotient is at least `2^(ra - rb - 1)`
  have hquot : (2 : ℚ) ^ ((ra : Int) - (rb : Int) - 1) ≤ (a : ℚ) / (b : ℚ) := by
    have h1 : ((2 : ℚ) ^ ra) ≤ a := by exact_mod_cast halo
    have h2 : (b : ℚ) ≤ 2 ^ (rb + 1) := by exact_mod_cast hbhi.le
    have h3 : (2 : ℚ) ^ ((ra : Int) - (rb : Int) - 1) = 2 ^ ra / 2 ^ (rb + 1) := by
      have : (ra : Int) - (rb : Int) - 1 = (ra : Int) - ((rb + 1 : Nat) : Int) := by
        push_cast; ring
      rw [this, zpow_sub₀ (by norm_num : (2 : ℚ) ≠ 0), zpow_natCast, zpow_natCast]
    rw [h3]
    exact div_le_div₀ (by exact_mod_cast Nat.zero_le a) h1 hbq h2
  have hk : (bitLen a : Int) - (bitLen b : Int) + e - 52 = (ra : Int) - (rb : Int) + e - 52 := by
    rw [hra, hrb]; push_cast; ring
  have hlow : ∀ k : Int, k = (ra : Int) - (rb : Int) + e - 52 →
      (2 : ℚ) ^ (k - 1 + 52) ≤ (a : ℚ) / (b : ℚ) * 2 ^ e := by
    intro k hk'
    have : k - 1 + 52 = ((ra : Int) - (rb : Int) - 1) + e := by rw [hk']; ring
    rw [this, zpow_add₀ (by norm_num : (2 : ℚ) ≠ 0)]
    exact mul_le_mul_of_nonneg_right hquot h2e.le
  unfold lastPlace
  simp only []
  rw [hk]
  generalize hkdef : (ra : Int) - (rb : Int) + e - 52 = k
  have hlow' := hlow k hkdef.symm
  refine ⟨le_max_right _ _, ?_⟩
  split_ifs with hq0
  · rcases le_total (k - 1) (-1074) with h | h
    · left; exact max_eq_right h
    · right; rw [max_eq_left h]; exact hlow'
  · rcases le_total k (-1074) with h | h
    · left; exact max_eq_right h
    · right
      rw [max_eq_left h]
      have hq0' : 2 ^ 52 ≤ a * 2 ^ (e - k).toNat / (b * 2 ^ (k - e).toNat) := Nat.le_of_not_lt hq0
      have h1 : ((2 : ℚ) ^ 52) ≤ ((a * 2 ^ (e - k).toNat / (b * 2 ^ (k - e).toNat) : Nat) : ℚ) := by
        exact_mod_cast hq0'
      have h2 : ((a * 2 ^ (e - k).toNat / (b * 2 ^ (k - e).toNat) : Nat) : ℚ)
          ≤ ((a * 2 ^ (e - k).toNat : Nat) : ℚ) / ((b * 2 ^ (k - e).toNat : Nat) : ℚ) :=
        Nat.cast_div_le
      rw [scaled_div] at h2
      have h3 : (2 : ℚ) ^ (k + 52) = 2 ^ (52 : Nat) * 2 ^ k := by
        rw [zpow_add₀ (by norm_num : (2 : ℚ) ≠ 0), mul_comm]
        norm_num
      have h4 : (a : ℚ) / (b : ℚ) * 2 ^ e = (a : ℚ) / (b : ℚ) * 2 ^ (e - k) * 2 ^ k := by
        rw [mul_assoc, ← zpow_add₀ (by norm_num : (2 : ℚ) ≠ 0)]
        congr 2; ring
      rw [h3, h4]
      exact mul_le_mul_of_nonneg_right (h1.trans h2) (two_zpow_pos k).le

/-- The rounding error of `roundScaled`: when the number is below `2^1023` the result is
finite and within half a unit of its last place, which is at most `2^-53` times the
number, or `2^-1075` for a subnormal result. -/
theorem roundScaled_spec (neg : Bool) (a b : Nat) (e : Int) (ha : 0 < a) (hb : 0 < b)
    (hx : (a : ℚ) / (b : ℚ) * 2 ^ e < 2 ^ (1023 : Int)) :
    ∃ m ex, roundScaled neg a b e = fin neg m ex ∧
      |(m : ℚ) * 2 ^ ex - (a : ℚ) / (b : ℚ) * 2 ^ e|
        ≤ (a : ℚ) / (b : ℚ) * 2 ^ e * 2 ^ (-53 : Int) + 2 ^ (-1075 : Int) := by
  obtain ⟨hge, hplace⟩ := lastPlace_spec a b e ha hb
  have hbq : (0 : ℚ) < b := by exact_mod_cast hb
  have haq : (0 : ℚ) < a := by exact_mod_cast ha
  have hxpos : (0 : ℚ) < (a : ℚ) / (b : ℚ) * 2 ^ e := mul_pos (div_pos haq hbq) (two_zpow_pos e)
  generalize hexdef : lastPlace a b e = ex at hge hplace
  have hden : 0 < b * 2 ^ (ex - e).toNat := Nat.mul_pos hb (Nat.pow_pos (by norm_num))
  have hn := nearestEven_spec (a * 2 ^ (e - ex).toNat) (b * 2 ^ (ex - e).toNat) hden
  rw [scaled_div] at hn
  generalize hmdef : nearestEven (a * 2 ^ (e - ex).toNat) (b * 2 ^ (ex - e).toNat) = m at hn
  have hexpos : (0 : ℚ) < 2 ^ ex := two_zpow_pos ex
  -- the error in units of the last place
  have herr : |(m : ℚ) * 2 ^ ex - (a : ℚ) / (b : ℚ) * 2 ^ e| ≤ 2 ^ ex / 2 := by
    have h1 : (m : ℚ) * 2 ^ ex - (a : ℚ) / (b : ℚ) * 2 ^ e
        = ((m : ℚ) - (a : ℚ) / (b : ℚ) * 2 ^ (e - ex)) * 2 ^ ex := by
      rw [sub_mul, mul_assoc, ← zpow_add₀ (by norm_num : (2 : ℚ) ≠ 0)]
      congr 3; ring
    rw [h1, abs_mul, abs_of_pos hexpos]
    calc |(m : ℚ) - (a : ℚ) / (b : ℚ) * 2 ^ (e - ex)| * 2 ^ ex
        ≤ 1 / 2 * 2 ^ ex := mul_le_mul_of_nonneg_right hn hexpos.le
      _ = 2 ^ ex / 2 := by ring
  have hhalf : (2 : ℚ) ^ ex / 2
      ≤ (a : ℚ) / (b : ℚ) * 2 ^ e * 2 ^ (-53 : Int) + 2 ^ (-1075 : Int) := by
    rcases hplace with h | h
    · have : (2 : ℚ) ^ ex / 2 = 2 ^ (-1075 : Int) := by
        rw [h, div_eq_mul_inv, ← zpow_neg_one, ← zpow_add₀ (by norm_num : (2 : ℚ) ≠ 0)]
        norm_num
      rw [this]
      have : (0 : ℚ) ≤ (a : ℚ) / (b : ℚ) * 2 ^ e * 2 ^ (-53 : Int) :=
        mul_nonneg hxpos.le (two_zpow_pos _).le
      linarith
    · have h1 : (2 : ℚ) ^ ex / 2 = 2 ^ (ex + 52) * 2 ^ (-53 : Int) := by
        rw [← zpow_add₀ (by norm_num : (2 : ℚ) ≠ 0), div_eq_mul_inv, ← zpow_neg_one,
          ← zpow_add₀ (by norm_num : (2 : ℚ) ≠ 0)]
        congr 1; ring
      rw [h1]
      have := mul_le_mul_of_nonneg_right h (two_zpow_pos (-53)).le
      have h0 : (0 : ℚ) < 2 ^ (-1075 : Int) := two_zpow_pos _
      linarith
  have hex970 : ex ≤ 970 := by
    rcases hplace with h | h
    · omega
    · by_contra hcon
      have h1 : (1023 : Int) ≤ ex + 52 := by omega
      have h2 : (2 : ℚ) ^ (1023 : Int) ≤ 2 ^ (ex + 52) :=
        zpow_le_zpow_right₀ (by norm_num) h1
      linarith
  unfold roundScaled
  have hne : ¬ (a = 0 ∨ b = 0) := by omega
  simp only [hne, if_false, hexdef, hmdef]
  by_cases hm : m = 2 ^ 53
  · have h1 : ¬ (971 : Int) < ex + 1 := by omega
    simp only [hm, if_true, h1, if_false]
    refine ⟨2 ^ 52, ex + 1, rfl, ?_⟩
    have h2 : ((2 ^ 52 : Nat) : ℚ) * 2 ^ (ex + 1) = (m : ℚ) * 2 ^ ex := by
      rw [hm, zpow_add₀ (by norm_num : (2 : ℚ) ≠ 0)]
      push_cast
      ring
    rw [h2]
    exact herr.trans hhalf
  · have h1 : ¬ (971 : Int) < ex := by omega
    simp only [hm, if_false, h1]
    exact ⟨m, ex, rfl, herr.trans hhalf⟩

/-- Rounding of a signed integer multiple of a power of two. -/
theorem roundScaled_signed (neg : Bool) (a : Nat) (e : Int) (ha : 0 < a)
    (hx : (a : ℚ) * 2 ^ e < 2 ^ (1023 : Int)) :
    ∃ m ex, roundScaled neg a 1 e = fin neg m ex ∧
      |toRat (fin neg m ex) - (if neg then -1 else 1) * (a : ℚ) * 2 ^ e|
        ≤ (a : ℚ) * 2 ^ e * 2 ^ (-53 : Int) + 2 ^ (-1075 : Int) := by
  have hx' : (a : ℚ) / ((1 : Nat) : ℚ) * 2 ^ e < 2 ^ (1023 : Int) := by simpa using hx
  obtain ⟨m, ex, hr, herr⟩ := roundScaled_spec neg a 1 e ha (by norm_num) hx'
  refine ⟨m, ex, hr, ?_⟩
  have herr' : |(m : ℚ) * 2 ^ ex - (a : ℚ) * 2 ^ e|
      ≤ (a : ℚ) * 2 ^ e * 2 ^ (-53 : Int) + 2 ^ (-1075 : Int) := by simpa using herr
  cases neg
  · simpa [toRat] using herr'
  · have : toRat (fin true m ex) - (if true = true then -1 else 1) * (a : ℚ) * 2 ^ e
        = -((m : ℚ) * 2 ^ ex - (a : ℚ) * 2 ^ e) := by
      simp [toRat]; ring
    rw [this, abs_neg]
    exact herr'

theorem toRat_scale (s : Bool) (m : Nat) (e ex : Int) (h : ex ≤ e) :
    ((((if s then -1 else 1) * ((m * 2 ^ (e - ex).toNat : Nat) : Int) : Int)) : ℚ) * 2 ^ ex
      = toRat (fin s m e) := by
  have h2 : ((e - ex).toNat : Int) = e - ex := Int.toNat_of_nonneg (by omega)
  have h3 : ((2 : ℚ) ^ (e - ex).toNat) * 2 ^ ex = 2 ^ e := by
    rw [← zpow_natCast, h2, ← zpow_add₀ (by norm_num : (2 : ℚ) ≠ 0)]
    congr 1; ring
  cases s <;> simp only [toRat] <;> push_cast <;> rw [← h3] <;> simp <;> ring

theorem toRat_negate (x : F64) : toRat (negate x) = -toRat x := by
  cases x with
  | nan => simp [negate, toRat]
  | inf s => simp [negate, toRat]
  | fin s m e => cases s <;> simp [negate, toRat]

/-- The rounding error of the sum of two finite values. -/
theorem add_spec (s : Bool) (m : Nat) (e : Int) (t : Bool) (n : Nat) (f : Int)
    (hS : |toRat (fin s m e) + toRat (fin t n f)| < 2 ^ (1023 : Int)) :
    ∃ s' m' e', add (fin s m e) (fin t n f) = fin s' m' e' ∧
      |toRat (fin s' m' e') - (toRat (fin s m e) + toRat (fin t n f))|
        ≤ |toRat (fin s m e) + toRat (fin t n f)| * 2 ^ (-53 : Int) + 2 ^ (-1075 : Int) := by
  have hx := toRat_scale s m e (min e f) (min_le_left e f)
  have hy := toRat_scale t n f (min e f) (min_le_right e f)
  simp only [add]
  generalize ((if s then -1 else 1) * ((m * 2 ^ (e - min e f).toNat : Nat) : Int) : Int) = X
    at hx ⊢
  generalize ((if t then -1 else 1) * ((n * 2 ^ (f - min e f).toNat : Nat) : Int) : Int) = Y
    at hy ⊢
  have hsum : ((X + Y : Int) : ℚ) * 2 ^ (min e f) = toRat (fin s m e) + toRat (fin t n f) := by
    push_cast; rw [add_mul, hx, hy]
  rw [← hsum] at hS ⊢
  generalize X + Y = z at hS ⊢
  generalize min e f = ex at hS ⊢
  have hexpos : (0 : ℚ) < 2 ^ ex := two_zpow_pos ex
  have hbound : (0 : ℚ) ≤ |(z : ℚ) * 2 ^ ex| * 2 ^ (-53 : Int) + 2 ^ (-1075 : Int) :=
    add_nonneg (mul_nonneg (abs_nonneg _) (two_zpow_pos _).le) (two_zpow_pos _).le
  by_cases hz : z = 0
  · refine ⟨s && t, 0, -1074, by simp [hz], ?_⟩
    have : toRat (fin (s && t) 0 (-1074)) - (z : ℚ) * 2 ^ ex = 0 := by
      simp [toRat, hz]
    rw [this, abs_zero]
    exact hbound
  · have habs : ((z.natAbs : Nat) : ℚ) * 2 ^ ex = |(z : ℚ) * 2 ^ ex| := by
      rw [abs_mul, abs_of_pos hexpos, Nat.cast_natAbs]
      push_cast
      rfl
    have hpos : 0 < z.natAbs := Int.natAbs_pos.mpr hz
    obtain ⟨m', e', hr, herr⟩ := roundScaled_signed (decide (z < 0)) z.natAbs ex hpos
      (by rw [habs]; exact hS)
    refine ⟨decide (z < 0), m', e', by simp [hz, hr], ?_⟩
    have hsign : (if decide (z < 0) = true then (-1 : ℚ) else 1) * (z.natAbs : ℚ) * 2 ^ ex
        = (z : ℚ) * 2 ^ ex := by
      have hcast : ((z.natAbs : Nat) : ℚ) = |(z : ℚ)| := by
        rw [Nat.cast_natAbs]; push_cast; rfl
      rw [hcast]
      by_cases hneg : z < 0
      · have : (z : ℚ) < 0 := by exact_mod_cast hneg
        simp [hneg, abs_of_neg this]
      · have : (0 : ℚ) ≤ z := by exact_mod_cast (not_lt.mp hneg)
        simp [hneg, abs_of_nonneg this]
    rw [hsign, habs] at herr
    exact herr

/-- The rounding error of the difference of two finite values. -/
theorem sub_spec (s : Bool) (m : Nat) (e : Int) (t : Bool) (n : Nat) (f : Int)
    (hS : |toRat (fin s m e) - toRat (fin t n f)| < 2 ^ (1023 : Int)) :
    ∃ s' m' e', sub (fin s m e) (fin t n f) = fin s' m' e' ∧
      |toRat (fin s' m' e') - (toRat (fin s m e) - toRat (fin t n f))|
        ≤ |toRat (fin s m e) - toRat (fin t n f)| * 2 ^ (-53 : Int) + 2 ^ (-1075 : Int) := by
  have hn : toRat (fin (!t) n f) = -toRat (fin t n f) := toRat_negate (fin t n f)
  have h := add_spec s m e (!t) n f (by rw [hn, ← sub_eq_add_neg]; exact hS)
  rw [hn, ← sub_eq_add_neg] at h
  exact h

theorem toRat_mul (s : Bool) (m : Nat) (e : Int) (t : Bool) (n : Nat) (f : Int) :
    toRat (fin (xor s t) (m * n) (e + f)) = toRat (fin s m e) * toRat (fin t n f) := by
  simp only [toRat]
  rw [zpow_add₀ (by norm_num : (2 : ℚ) ≠ 0)]
  cases s <;> cases t <;> simp <;> ring

/-- The rounding error of the product of two finite values. -/
theorem mul_spec (s : Bool) (m : Nat) (e : Int) (t : Bool) (n : Nat) (f : Int)
    (hP : |toRat (fin s m e) * toRat (fin t n f)| < 2 ^ (1023 : Int)) :
    ∃ s' m' e', mul (fin s m e) (fin t n f) = fin s' m' e' ∧
      |toRat (fin s' m' e') - toRat (fin s m e) * toRat (fin t n f)|
        ≤ |toRat (fin s m e) * toRat (fin t n f)| * 2 ^ (-53 : Int) + 2 ^ (-1075 : Int) := by
  rw [← toRat_mul] at hP ⊢
  simp only [mul]
  have hbound : (0 : ℚ) ≤ |toRat (fin (xor s t) (m * n) (e + f))| * 2 ^ (-53 : Int)
      + 2 ^ (-1075 : Int) :=
    add_nonneg (mul_nonneg (abs_nonneg _) (two_zpow_pos _).le) (two_zpow_pos _).le
  by_cases hz : m * n = 0
  · refine ⟨xor s t, 0, -1074, by simp [roundScaled, hz], ?_⟩
    have : toRat (fin (xor s t) 0 (-1074)) - toRat (fin (xor s t) (m * n) (e + f)) = 0 := by
      simp [toRat, hz]
    rw [this, abs_zero]
    exact hbound
  · have hpos : 0 < m * n := Nat.pos_of_ne_zero hz
    have habs : |toRat (fin (xor s t) (m * n) (e + f))| = ((m * n : Nat) : ℚ) * 2 ^ (e + f) := by
      have h1 : (0 : ℚ) ≤ ((m * n : Nat) : ℚ) * 2 ^ (e + f) :=
        mul_nonneg (Nat.cast_nonneg _) (two_zpow_pos _).le
      simp only [toRat]
      cases xor s t
      · simp only [Bool.false_eq_true, if_false, one_mul]; exact abs_of_nonneg h1
      · simp only [if_true, neg_mul, one_mul, abs_neg]; exact abs_of_nonneg h1
    obtain ⟨m', e', hr, herr⟩ := roundScaled_signed (xor s t) (m * n) (e + f) hpos
      (by rw [← habs]; exact hP)
    refine ⟨xor s t, m', e', hr, ?_⟩
    rw [habs]
    simpa [toRat] using herr

/-- The rounding error of the fused multiply-add of three finite values. -/
theorem fma_spec (s : Bool) (m : Nat) (e : Int) (t : Bool) (n : Nat) (f : Int)
    (u : Bool) (p : Nat) (g : Int)
    (hS : |toRat (fin s m e) * toRat (fin t n f) + toRat (fin u p g)| < 2 ^ (1023 : Int)) :
    ∃ s' m' e', fma (fin s m e) (fin t n f) (fin u p g) = fin s' m' e' ∧
      |toRat (fin s' m' e') - (toRat (fin s m e) * toRat (fin t n f) + toRat (fin u p g))|
        ≤ |toRat (fin s m e) * toRat (fin t n f) + toRat (fin u p g)| * 2 ^ (-53 : Int)
          + 2 ^ (-1075 : Int) := by
  rw [← toRat_mul] at hS ⊢
  exact add_spec (xor s t) (m * n) (e + f) u p g hS

theorem err_le (x y : ℚ) (h : |x - y| ≤ |y| * 2 ^ (-53 : Int) + 2 ^ (-1075 : Int))
    (hy : |y| ≤ 2047) : |x - y| ≤ 2 ^ (-42 : Int) := by
  have h1 : (2 : ℚ) ^ (-1075 : Int) ≤ 2 ^ (-53 : Int) :=
    zpow_le_zpow_right₀ (by norm_num) (by norm_num)
  have h2 : |y| * 2 ^ (-53 : Int) ≤ 2047 * 2 ^ (-53 : Int) :=
    mul_le_mul_of_nonneg_right hy (two_zpow_pos _).le
  have h3 : (2 : ℚ) ^ (-42 : Int) = 2048 * 2 ^ (-53 : Int) := by norm_num
  rw [h3]
  linarith

theorem lt_big (y : ℚ) (hy : |y| ≤ 2047) : |y| < 2 ^ (1023 : Int) := by
  have h1 : (2 : ℚ) ^ (11 : Int) ≤ 2 ^ (1023 : Int) :=
    zpow_le_zpow_right₀ (by norm_num) (by norm_num)
  have h2 : (2 : ℚ) ^ (11 : Int) = 2048 := by norm_num
  rw [h2] at h1
  linarith

theorem ofConst_5_9 : F64.ofConst 5 9 = fin false 5003999585967218 (-53) := by decide!

theorem ofConst_32 : F64.ofConst 32 1 = fin false 4503599627370496 (-47) := by decide!

theorem ofConst_27315 : F64.ofConst 27315 100 = fin false 4805305618032230 (-44) := by decide!

theorem toRat_5_9 : toRat (fin false 5003999585967218 (-53)) = 2501999792983609 / 4503599627370496 := by
  simp only [toRat]; norm_num

theorem toRat_32 : toRat (fin false 4503599627370496 (-47)) = 32 := by
  simp only [toRat]; norm_num

theorem toRat_27315 : toRat (fin false 4805305618032230 (-44)) = 2402652809016115 / 8796093022208 := by
  simp only [toRat]; norm_num

/-- In `float64` arithmetic, for a finite Fahrenheit reading of at most 1024 degrees in
absolute value, forecastIo returns a finite value within `2^-40` of
`5/9 * (f - 32) + 273.15`, whether the compiler fuses the multiplication and the addition
or not. -/
theorem forecastIo_F64 {ε : Type} (fused : Bool) (s : Bool) (m : Nat) (e : Int)
    (hf : |toRat (fin s m e)| ≤ 1024) :
    ∃ s' m' e', (forecastIo.temperature fused (.decoded (fin s m e)) : F64 × Option ε)
        = (fin s' m' e', none) ∧
      |toRat (fin s' m' e') - (5 / 9 * (toRat (fin s m e) - 32) + 273.15)|
        ≤ 2 ^ (-40 : Int) := by
  generalize hF : toRat (fin s m e) = F at hf
  obtain ⟨hf1, hf2⟩ := abs_le.mp hf
  -- the subtraction
  have hsub0 : |toRat (fin s m e) - toRat (fin false 4503599627370496 (-47))| ≤ 2047 := by
    rw [hF, toRat_32, abs_le]; constructor <;> linarith
  obtain ⟨s₁, m₁, e₁, hsub, herr₁⟩ := sub_spec s m e false 4503599627370496 (-47) (lt_big _ hsub0)
  have herr₁' := err_le _ _ herr₁ hsub0
  rw [hF, toRat_32] at herr₁'
  generalize hT₁ : toRat (fin s₁ m₁ e₁) = T₁ at herr₁'
  obtain ⟨ha1, ha2⟩ := abs_le.mp herr₁'
  have h42 : (2 : ℚ) ^ (-42 : Int) = 1 / 4398046511104 := by norm_num
  have h40 : (2 : ℚ) ^ (-40 : Int) = 1 / 1099511627776 := by norm_num
  rw [h42] at herr₁' ha1 ha2
  cases fused
  · -- two operations, each rounded
    have hmul0 : |toRat (fin false 5003999585967218 (-53)) * toRat (fin s₁ m₁ e₁)| ≤ 2047 := by
      rw [hT₁, toRat_5_9, abs_le]; constructor <;> linarith
    obtain ⟨s₂, m₂, e₂, hmul, herr₂⟩ :=
      mul_spec false 5003999585967218 (-53) s₁ m₁ e₁ (lt_big _ hmul0)
    have herr₂' := err_le _ _ herr₂ hmul0
    rw [hT₁, toRat_5_9] at herr₂'
    generalize hT₂ : toRat (fin s₂ m₂ e₂) = T₂ at herr₂'
    obtain ⟨hb1, hb2⟩ := abs_le.mp herr₂'
    rw [h42] at hb1 hb2
    have hadd0 : |toRat (fin s₂ m₂ e₂) + toRat (fin false 4805305618032230 (-44))| ≤ 2047 := by
      rw [hT₂, toRat_27315, abs_le]; constructor <;> linarith
    obtain ⟨s₃, m₃, e₃, hadd, herr₃⟩ :=
      add_spec s₂ m₂ e₂ false 4805305618032230 (-44) (lt_big _ hadd0)
    have herr₃' := err_le _ _ herr₃ hadd0
    rw [hT₂, toRat_27315] at herr₃'
    generalize hT₃ : toRat (fin s₃ m₃ e₃) = T₃ at herr₃'
    obtain ⟨hc1, hc2⟩ := abs_le.mp herr₃'
    rw [h42] at hc1 hc2
    refine ⟨s₃, m₃, e₃, ?_, ?_⟩
    · show (F64.add (F64.mul (F64.ofConst 5 9) (F64.sub (fin s m e) (F64.ofConst 32 1)))
        (F64.ofConst 27315 100), (none : Option ε)) = _
      rw [ofConst_5_9, ofConst_32, ofConst_27315, hsub, hmul, hadd]
    · rw [hT₃, h40, abs_le]
      constructor <;> norm_num <;> linarith
  · -- one fused operation
    have hfma0 : |toRat (fin false 5003999585967218 (-53)) * toRat (fin s₁ m₁ e₁)
        + toRat (fin false 4805305618032230 (-44))| ≤ 2047 := by
      rw [hT₁, toRat_5_9, toRat_27315, abs_le]; constructor <;> linarith
    obtain ⟨s₃, m₃, e₃, hfma, herr₃⟩ :=
      fma_spec false 5003999585967218 (-53) s₁ m₁ e₁ false 4805305618032230 (-44)
        (lt_big _ hfma0)
    have herr₃' := err_le _ _ herr₃ hfma0
    rw [hT₁, toRat_5_9, toRat_27315] at herr₃'
    generalize hT₃ : toRat (fin s₃ m₃ e₃) = T₃ at herr₃'
    obtain ⟨hc1, hc2⟩ := abs_le.mp herr₃'
    rw [h42] at hc1 hc2
    refine ⟨s₃, m₃, e₃, ?_, ?_⟩
    · show (F64.fma (F64.ofConst 5 9) (F64.sub (fin s m e) (F64.ofConst 32 1))
        (F64.ofConst 27315 100), (none : Option ε)) = _
      rw [ofConst_5_9, ofConst_32, ofConst_27315, hsub, hfma]
    · rw [hT₃, h40, abs_le]
      constructor <;> norm_num <;> linarith

/-- In `float64` arithmetic, for a finite Celsius reading of at most 1024 degrees in
absolute value, weatherUnderground returns a finite value within `2^-40` of
`c + 273.15`. -/
theorem weatherUnderground_F64 {ε : Type} (s : Bool) (m : Nat) (e : Int)
    (hc : |toRat (fin s m e)| ≤ 1024) :
    ∃ s' m' e', (weatherUnderground.temperature (.decoded (fin s m e)) : F64 × Option ε)
        = (fin s' m' e', none) ∧
      |toRat (fin s' m' e') - (toRat (fin s m e) + 273.15)| ≤ 2 ^ (-40 : Int) := by
  generalize hC : toRat (fin s m e) = C at hc
  obtain ⟨hf1, hf2⟩ := abs_le.mp hc
  have hadd0 : |toRat (fin s m e) + toRat (fin false 4805305618032230 (-44))| ≤ 2047 := by
    rw [hC, toRat_27315, abs_le]; constructor <;> linarith
  obtain ⟨s₃, m₃, e₃, hadd, herr₃⟩ :=
    add_spec s m e false 4805305618032230 (-44) (lt_big _ hadd0)
  have herr₃' := err_le _ _ herr₃ hadd0
  rw [hC, toRat_27315] at herr₃'
  generalize hT₃ : toRat (fin s₃ m₃ e₃) = T₃ at herr₃'
  obtain ⟨hc1, hc2⟩ := abs_le.mp herr₃'
  have h42 : (2 : ℚ) ^ (-42 : Int) = 1 / 4398046511104 := by norm_num
  have h40 : (2 : ℚ) ^ (-40 : Int) = 1 / 1099511627776 := by norm_num
  rw [h42] at hc1 hc2
  refine ⟨s₃, m₃, e₃, ?_, ?_⟩
  · show (F64.add (fin s m e) (F64.ofConst 27315 100), (none : Option ε)) = _
    rw [ofConst_27315, hadd]
  · rw [hT₃, h40, abs_le]
    constructor <;> norm_num <;> linarith

end Rounding

/-! ## The provider adapters: results -/

/-- C9: every adapter returns Kelvin.  In exact arithmetic, for a decoded Fahrenheit
reading `f` forecastIo returns `5/9 * (f - 32) + 273.15`, for a decoded Celsius reading
`c` weatherUnderground returns `c + 273.15`, openWeatherMap returns its decoded Kelvin
reading unchanged, and forecastIo on `9/5 * c + 32` returns what weatherUnderground
returns on `c`.  In `float64` arithmetic, for every finite reading of at most 1024 degrees
in absolute value, forecastIo (whether the compiler fuses the multiplication and the
addition or not) and weatherUnderground return a finite value within `2^-40` of these
formulas, so that on equivalent readings they agree within `2^-39`; 32 °F and 0 °C both
give `273.15`; and 51.03 °F gives `283.7222222222222` without fusion and
`283.72222222222223` with it. -/
theorem adapters_return_kelvin {ε : Type} :
    (∀ (fused : Bool) (f : ℚ), (forecastIo.temperature fused (.decoded f) : ℚ × Option ε)
        = (5 / 9 * (f - 32) + 273.15, none)) ∧
      (∀ c : ℚ, (weatherUnderground.temperature (.decoded c) : ℚ × Option ε)
        = (c + 273.15, none)) ∧
      (∀ (α : Type) [GoFloat α] (k : α),
        (openWeatherMap.temperature (.decoded k) : α × Option ε) = (k, none)) ∧
      (∀ (fused : Bool) (c : ℚ),
        (forecastIo.temperature fused (.decoded (9 / 5 * c + 32)) : ℚ × Option ε)
          = weatherUnderground.temperature (.decoded c)) ∧
      (∀ (fused : Bool) (s : Bool) (m : Nat) (e : Int), |F64.toRat (.fin s m e)| ≤ 1024 →
        ∃ s' m' e',
          (forecastIo.temperature fused (.decoded (.fin s m e)) : F64 × Option ε)
            = (.fin s' m' e', none) ∧
          |F64.toRat (.fin s' m' e') - (5 / 9 * (F64.toRat (.fin s m e) - 32) + 273.15)|
            ≤ 2 ^ (-40 : Int)) ∧
      (∀ (s : Bool) (m : Nat) (e : Int), |F64.toRat (.fin s m e)| ≤ 1024 →
        ∃ s' m' e',
          (weatherUnderground.temperature (.decoded (.fin s m e)) : F64 × Option ε)
            = (.fin s' m' e', none) ∧
          |F64.toRat (.fin s' m' e') - (F64.toRat (.fin s m e) + 273.15)|
            ≤ 2 ^ (-40 : Int)) ∧
      (∀ (fused : Bool) (s : Bool) (m : Nat) (e : Int) (t : Bool) (n : Nat) (g : Int),
        |F64.toRat (.fin t n g)| ≤ 500 →
        F64.toRat (.fin s m e) = 9 / 5 * F64.toRat (.fin t n g) + 32 →
        ∃ s₁ m₁ e₁ s₂ m₂ e₂,
          (forecastIo.temperature fused (.decoded (.fin s m e)) : F64 × Option ε)
            = (.fin s₁ m₁ e₁, none) ∧
          (weatherUnderground.temperature (.decoded (.fin t n g)) : F64 × Option ε)
            = (.fin s₂ m₂ e₂, none) ∧
          |F64.toRat (.fin s₁ m₁ e₁) - F64.toRat (.fin s₂ m₂ e₂)| ≤ 2 ^ (-39 : Int)) ∧
      (∀ fused : Bool,
        (forecastIo.temperature fused (.decoded (F64.ofConst 32 1)) : F64 × Option ε)
          = (F64.ofConst 27315 100, none)) ∧
      (weatherUnderground.temperature (.decoded (F64.ofConst 0 1)) : F64 × Option ε)
        = (F64.ofConst 27315 100, none) ∧
      (forecastIo.temperature false (.decoded (F64.ofConst 5103 100)) : F64 × Option ε)
        = (.fin false 4991294118268472 (-44), none) ∧
      (forecastIo.temperature true (.decoded (F64.ofConst 5103 100)) : F64 × Option ε)
        = (.fin false 4991294118268473 (-44), none) := by
  have hf : ∀ (fused : Bool) (f : ℚ),
      (forecastIo.temperature fused (.decoded f) : ℚ × Option ε)
        = (5 / 9 * (f - 32) + 273.15, none) := by
    intro fused f
    cases fused
    · show ((((5 : Int) : ℚ) / ((9 : Nat) : ℚ)) * (f - ((32 : Int) : ℚ) / ((1 : Nat) : ℚ))
        + ((27315 : Int) : ℚ) / ((100 : Nat) : ℚ), (none : Option ε)) = _
      norm_num
    · show ((((5 : Int) : ℚ) / ((9 : Nat) : ℚ)) * (f - ((32 : Int) : ℚ) / ((1 : Nat) : ℚ))
        + ((27315 : Int) : ℚ) / ((100 : Nat) : ℚ), (none : Option ε)) = _
      norm_num
  have hc : ∀ c : ℚ, (weatherUnderground.temperature (.decoded c) : ℚ × Option ε)
      = (c + 273.15, none) := by
    intro c
    show (c + ((27315 : Int) : ℚ) / ((100 : Nat) : ℚ), (none : Option ε)) = _
    norm_num
  have h32 : ∀ fused : Bool,
      (forecastIo.temperature fused (.decoded (F64.ofConst 32 1)) : F64 × Option ε)
        = (F64.ofConst 27315 100, none) := by
    intro fused
    cases fused
    · show (F64.add (F64.mul (F64.ofConst 5 9) (F64.sub (F64.ofConst 32 1) (F64.ofConst 32 1)))
        (F64.ofConst 27315 100), (none : Option ε)) = _
      have : F64.add (F64.mul (F64.ofConst 5 9) (F64.sub (F64.ofConst 32 1) (F64.ofConst 32 1)))
          (F64.ofConst 27315 100) = F64.ofConst 27315 100 := by decide!
      rw [this]
    · show (F64.fma (F64.ofConst 5 9) (F64.sub (F64.ofConst 32 1) (F64.ofConst 32 1))
        (F64.ofConst 27315 100), (none : Option ε)) = _
      have : F64.fma (F64.ofConst 5 9) (F64.sub (F64.ofConst 32 1) (F64.ofConst 32 1))
          (F64.ofConst 27315 100) = F64.ofConst 27315 100 := by decide!
      rw [this]
  refine ⟨hf, hc, fun α _ k => rfl, fun fused c => ?_, fun fused s m e h => forecastIo_F64 fused s m e h,
    fun s m e h => weatherUnderground_F64 s m e h, ?_, h32, ?_, ?_, ?_⟩
  · rw [hf, hc]
    congr 1
    ring
  · intro fused s m e t n g hyb hxy
    have hxb : |F64.toRat (.fin s m e)| ≤ 1024 := by
      rw [hxy]
      obtain ⟨h1, h2⟩ := abs_le.mp hyb
      rw [abs_le]; constructor <;> linarith
    have hyb' : |F64.toRat (.fin t n g)| ≤ 1024 := hyb.trans (by norm_num)
    obtain ⟨s₁, m₁, e₁, hx1, hx2⟩ := forecastIo_F64 (ε := ε) fused s m e hxb
    obtain ⟨s₂, m₂, e₂, hy1, hy2⟩ := weatherUnderground_F64 (ε := ε) t n g hyb'
    refine ⟨s₁, m₁, e₁, s₂, m₂, e₂, hx1, hy1, ?_⟩
    rw [hxy] at hx2
    have h40 : (2 : ℚ) ^ (-40 : Int) = 1 / 1099511627776 := by norm_num
    have h39 : (2 : ℚ) ^ (-39 : Int) = 1 / 549755813888 := by norm_num
    rw [h40] at hx2 hy2
    obtain ⟨a1, a2⟩ := abs_le.mp hx2
    obtain ⟨b1, b2⟩ := abs_le.mp hy2
    rw [h39, abs_le]
    constructor <;> linarith
  · show (F64.add (F64.ofConst 0 1) (F64.ofConst 27315 100), (none : Option ε)) = _
    have : F64.add (F64.ofConst 0 1) (F64.ofConst 27315 100) = F64.ofConst 27315 100 := by
      decide!
    rw [this]
  · show (F64.add (F64.mul (F64.ofConst 5 9) (F64.sub (F64.ofConst 5103 100) (F64.ofConst 32 1)))
      (F64.ofConst 27315 100), (none : Option ε)) = _
    have : F64.add (F64.mul (F64.ofConst 5 9) (F64.sub (F64.ofConst 5103 100) (F64.ofConst 32 1)))
        (F64.ofConst 27315 100) = .fin false 4991294118268472 (-44) := by decide!
    rw [this]
  · show (F64.fma (F64.ofConst 5 9) (F64.sub (F64.ofConst 5103 100) (F64.ofConst 32 1))
      (F64.ofConst 27315 100), (none : Option ε)) = _
    have : F64.fma (F64.ofConst 5 9) (F64.sub (F64.ofConst 5103 100) (F64.ofConst 32 1))
        (F64.ofConst 27315 100) = .fin false 4991294118268473 (-44) := by decide!
    rw [this]

/-- C9, witness: the reading 51.03 °F, which is the `float64`
`7181834030772388 * 2^-47`; without fusion forecastIo returns
`4991294118268472 * 2^-44`, which is within `2^-40` of `5/9 * (f - 32) + 273.15`. -/
theorem adapters_return_kelvin_witness :
    |F64.toRat (.fin false 4991294118268472 (-44))
        - (5 / 9 * (F64.toRat (.fin false 7181834030772388 (-47)) - 32) + 273.15)|
      ≤ 2 ^ (-40 : Int) := by
  have hread : F64.ofConst 5103 100 = .fin false 7181834030772388 (-47) := by decide!
  have hin : |F64.toRat (.fin false 7181834030772388 (-47))| ≤ 1024 := by
    rw [abs_le]
    constructor <;> norm_num [F64.toRat]
  obtain ⟨s', m', e', h1, h2⟩ :=
    (adapters_return_kelvin (ε := String)).2.2.2.2.1 false false 7181834030772388 (-47) hin
  have h3 := (adapters_return_kelvin (ε := String)).2.2.2.2.2.2.2.2.2.1
  rw [hread, h1] at h3
  injection h3 with h3 _
  rw [h3] at h2
  exact h2

end GoIsGod
